import Mathlib

/-!
# L0 gradient smoothing: embedding of `L0minimization.cpp`

Shallow embedding of the solver core of `src/L0minimization.cpp`.

Conventions of the embedding.
* `float` values are elements of an arbitrary linearly ordered field `α`
  (exact arithmetic). The penalty weight `beta`, whose stored values decide the
  loop test, has a second model in which the product of line 339 is rounded
  when it is stored (`loopBodyRounded`, `runLoopRounded`); `roundBinary32` is
  the rounding of IEEE 754 binary32 on the rationals.
* `int` indices and sizes are natural numbers; `rows * cols` is assumed to fit
  the machine `int`, as it must for the matrices to be allocated at all.
* A `cv::Mat` of type `CV_32FC1` is a record of its two dimensions and its
  entries, addressed by (row, column).
* An `Eigen::VectorXf` is a function on indices; an `Eigen::SparseMatrix` of
  size `N × N` is a `Matrix (Fin N) (Fin N) α` whose entries are the sums of the
  triplets given to `setFromTriplets`.
* The two Eigen solvers are parameters of the model.
-/

namespace L0

/-! ## Data model -/

/-- Single-channel image plane: `cv::Mat` with `rows`, `cols` and its entries. -/
@[ext]
structure Mat (α : Type) where
  rows : Nat
  cols : Nat
  data : Nat → Nat → α

/-- Write of one entry, `m.at<float>(i, j) = v` (or a store through a row pointer). -/
def Mat.set {α : Type} (m : Mat α) (i j : Nat) (v : α) : Mat α :=
  { m with data := fun i' j' => if i' = i ∧ j' = j then v else m.data i' j' }

/-- Entry of a sparse matrix under construction: `Eigen::Triplet<float>(row, col, value)`. -/
structure Triplet (α : Type) where
  row : Nat
  col : Nat
  value : α

/-- Write of one vector entry, `vec[k] = v`. -/
def vecSet {α : Type} (vec : Nat → α) (k : Nat) (v : α) : Nat → α :=
  fun k' => if k' = k then v else vec k'

/-- The loop nest `for (i = 0; i < rows; ++i) for (j = 0; j < cols; ++j) body`,
threading the mutated state. -/
def forEachPixel {σ : Type} (rows cols : Nat) (body : Nat → Nat → σ → σ) (s : σ) : σ :=
  (List.range rows).foldl (fun s i => (List.range cols).foldl (fun s j => body i j s) s) s

section Operators

variable {α : Type} [LinearOrderedField α]

/-- Entry `(p, q)` of the matrix built by `setFromTriplets`: duplicates are summed. -/
def setFromTriplets (coeffcients : List (Triplet α)) (p q : Nat) : α :=
  ((coeffcients.filter (fun t => decide (t.row = p ∧ t.col = q))).map Triplet.value).sum

/-- The triplet list `coeffcients` accumulated by the loops of `buildGradientMatrix`
(lines 133-160): for each pixel, the x offsets when `x_indices` is not empty, then the
y offsets when `y_indices` is not empty; a neighbour index `>= num_of_variables`
is skipped by `continue`. -/
def gradientTriplets (rows cols : Nat) (x_indices y_indices : List (Nat × α)) :
    List (Triplet α) :=
  let num_of_variables := rows * cols
  (List.range rows).flatMap fun i =>
    (List.range cols).flatMap fun j =>
      let index := i * cols + j
      (if x_indices.isEmpty then []
        else x_indices.filterMap fun k =>
          let n_index := index + k.1
          if n_index ≥ num_of_variables then none
          else some (Triplet.mk index n_index k.2))
      ++
      (if y_indices.isEmpty then []
        else y_indices.filterMap fun k =>
          let n_index := (i + k.1) * cols + j
          if n_index ≥ num_of_variables then none
          else some (Triplet.mk index n_index k.2))

/-- Entries of `G` after `buildGradientMatrix(G, rows, cols, x_indices, y_indices)`. -/
def buildGradientMatrix (rows cols : Nat) (x_indices y_indices : List (Nat × α))
    (p q : Nat) : α :=
  setFromTriplets (gradientTriplets rows cols x_indices y_indices) p q

/-- Entries of `mat` after `constructSparseIdentityMatrix(mat, num_of_variables)`. -/
def constructSparseIdentityMatrix (num_of_variables : Nat) (p q : Nat) : α :=
  setFromTriplets ((List.range num_of_variables).map fun i => Triplet.mk i i (1 : α)) p q

/-- The offset list `indices` of `init`: `(0, 1.0f)` then `(1, -1.0f)`. -/
def indices : List (Nat × α) := [(0, 1), (1, -1)]

/-- Matrix `GX` built by `init(rows, cols)` (lines 178-182). -/
def GX (rows cols : Nat) : Matrix (Fin (rows * cols)) (Fin (rows * cols)) α :=
  Matrix.of fun p q => buildGradientMatrix rows cols indices [] p.val q.val

/-- Matrix `GY` built by `init(rows, cols)` (lines 183-184). -/
def GY (rows cols : Nat) : Matrix (Fin (rows * cols)) (Fin (rows * cols)) α :=
  Matrix.of fun p q => buildGradientMatrix rows cols [] indices p.val q.val

/-- The process-wide solver buffers (lines 20-22) for `N` variables. -/
structure Globals (α : Type) (N : Nat) where
  A0 : Matrix (Fin N) (Fin N) α
  E : Matrix (Fin N) (Fin N) α
  GX : Matrix (Fin N) (Fin N) α
  GY : Matrix (Fin N) (Fin N) α
  S_vec : Nat → α
  I_vec : Nat → α
  H_vec : Nat → α
  V_vec : Nat → α

/-- State of the globals after `init(rows, cols)`. -/
def init (rows cols : Nat) : Globals α (rows * cols) :=
  { GX := GX rows cols
    GY := GY rows cols
    A0 := (GX rows cols).transpose * GX rows cols + (GY rows cols).transpose * GY rows cols
    E := Matrix.of fun p q => constructSparseIdentityMatrix (rows * cols) p.val q.val
    S_vec := fun _ => 0
    I_vec := fun _ => 0
    H_vec := fun _ => 0
    V_vec := fun _ => 0 }

end Operators

section Fields

variable {α : Type}

/-- Copy of a vector into a grid, `vec2CvMat(vec, mat, rows, cols)`. -/
def vec2CvMat (vec : Nat → α) (mat : Mat α) (rows cols : Nat) : Mat α :=
  forEachPixel rows cols (fun i j m => m.set i j (vec (i * cols + j))) mat

/-- Copy of a grid into a vector, `cvMat2Vec(mat, vec)`. -/
def cvMat2Vec (mat : Mat α) (vec : Nat → α) : Nat → α :=
  forEachPixel mat.rows mat.cols
    (fun i j v => vecSet v (i * mat.cols + j) (mat.data i j)) vec

/-- Forward differences, `computeGradient(mat, grad_x, grad_y)`: the pair of gradient
buffers after the call. -/
def computeGradient [Sub α] (mat grad_x grad_y : Mat α) : Mat α × Mat α :=
  forEachPixel (mat.rows - 1) (mat.cols - 1)
    (fun i j g =>
      (g.1.set i j (mat.data i j - mat.data i (j + 1)),
       g.2.set i j (mat.data i j - mat.data (i + 1) j)))
    (grad_x, grad_y)

/-- The first `N` entries of a vector buffer, as an argument of matrix algebra. -/
def toFin (N : Nat) (vec : Nat → α) : Fin N → α := fun p => vec p.val

/-- Vector of size `N` stored back into a buffer. -/
def ofFin [Zero α] {N : Nat} (v : Fin N → α) : Nat → α :=
  fun k => if h : k < N then v ⟨k, h⟩ else 0

end Fields

section Solver

variable {α : Type} [LinearOrderedField α]

/-- Library routines the program calls and does not define: the two Eigen solvers
(`SimplicialLLT` and `ConjugateGradient`, each as `compute(A).solve(b)`) and the
rounding and saturation to 8 bits inside `cv::convertScaleAbs`. -/
structure External (α : Type) where
  llt : {N : Nat} → Matrix (Fin N) (Fin N) α → (Fin N → α) → (Fin N → α)
  cg : {N : Nat} → Matrix (Fin N) (Fin N) α → (Fin N → α) → (Fin N → α)
  saturate : α → Nat

/-- Optimization parameters (lines 12-17). -/
structure Params (α : Type) where
  lambda : α
  beta0 : α
  beta_max : α
  kappa : α
  exact : Bool
  iter_max : Nat

/-- Parameters as set by `parseConfigFile` from the four parsed values
(lines 95-100); `iter_max` keeps its initial value unless given. -/
def Params.ofConfig (lambda beta_max kappa : α) (exact : Bool) (iter_max : Nat) : Params α :=
  { lambda := lambda, beta0 := 2 * lambda, beta_max := beta_max, kappa := kappa,
    exact := exact, iter_max := iter_max }

/-- System matrix of `computeS` (line 249): `beta * A0 + E`. -/
def systemMatrix {N : Nat} (g : Globals α N) (beta : α) : Matrix (Fin N) (Fin N) α :=
  beta • g.A0 + g.E

/-- Right-hand side of `computeS` (lines 250-251). -/
def rightHandSide {N : Nat} (g : Globals α N) (I_vec H_vec V_vec : Nat → α) (beta : α) :
    Fin N → α :=
  toFin N I_vec +
    beta • (g.GX.transpose.mulVec (toFin N H_vec) + g.GY.transpose.mulVec (toFin N V_vec))

/-- Linear solve `computeS(S, I, H, V, beta)`: the new `S` and the globals after it. -/
def computeS (ext : External α) (P : Params α) {N : Nat} (g : Globals α N)
    (S I H V : Mat α) (beta : α) : Mat α × Globals α N :=
  let rows := S.rows
  let cols := S.cols
  let I_vec := cvMat2Vec I g.I_vec
  let H_vec := cvMat2Vec H g.H_vec
  let V_vec := cvMat2Vec V g.V_vec
  let A := systemMatrix g beta
  let b := rightHandSide g I_vec H_vec V_vec beta
  let S_vec := ofFin (if P.exact then ext.llt A b else ext.cg A b)
  (vec2CvMat S_vec S rows cols,
   { g with S_vec := S_vec, I_vec := I_vec, H_vec := H_vec, V_vec := V_vec })

/-- The buffers `optimize` mutates. -/
structure Work (α : Type) (N : Nat) where
  H : Mat α
  V : Mat α
  grad_x : Mat α
  grad_y : Mat α
  g : Globals α N

/-- The loop "Computing h, v" of `optimize` (lines 282-295): the pair `(H, V)` after it. -/
def shrink (lambda beta : α) (rows cols : Nat) (grad_x grad_y H V : Mat α) : Mat α × Mat α :=
  forEachPixel rows cols
    (fun j i hv =>
      let gx := grad_x.data j i
      let gy := grad_y.data j i
      let val := gx * gx + gy * gy
      if val < lambda / beta then (hv.1.set j i 0, hv.2.set j i 0)
      else (hv.1.set j i gx, hv.2.set j i gy))
    (H, V)

/-- One call `optimize(S, I, H, V, grad_x, grad_y, beta)`: the new `S` and buffers. -/
def optimize (ext : External α) (P : Params α) {N : Nat} (S I : Mat α) (w : Work α N)
    (beta : α) : Mat α × Work α N :=
  let rows := S.rows
  let cols := S.cols
  let grad := computeGradient S w.grad_x w.grad_y
  let hv := shrink P.lambda beta rows cols grad.1 grad.2 w.H w.V
  let r := computeS ext P w.g S I hv.1 hv.2 beta
  (r.1, { H := hv.1, V := hv.2, grad_x := grad.1, grad_y := grad.2, g := r.2 })

/-- The channel loop of `minimizeL0Gradient` (lines 335-337) over the channels not
yet processed: calls `optimize` on each `(S_channels[i], I_channels[i])` in order. -/
def optimizeChannels (ext : External α) (P : Params α) {N : Nat} (beta : α) :
    List (Mat α) → List (Mat α) → Work α N → List (Mat α) × Work α N
  | S :: Ss, I :: Is, w =>
    let r := optimize ext P S I w beta
    let rest := optimizeChannels ext P beta Ss Is r.2
    (r.1 :: rest.1, rest.2)
  | Ss, _, w => (Ss, w)

/-- Quantization `cv::convertScaleAbs(S, dst, 255.0)`: entrywise `saturate(|255 * x|)`. -/
def convertScaleAbs (ext : External α) (S : Mat α) : Mat Nat :=
  { rows := S.rows, cols := S.cols, data := fun i j => ext.saturate |S.data i j * 255| }

/-- State of the main loop of `minimizeL0Gradient`. `out` is the console output of
line 340, one `(count, beta)` pair per line. -/
structure LoopState (α : Type) (N : Nat) where
  S_channels : List (Mat α)
  w : Work α N
  beta : α
  count : Nat
  S_mats : List (List (Mat Nat))
  out : List (Nat × α)

/-- Body of the main loop up to and including `S_mats.push_back` (lines 334-346). -/
def loopBody (ext : External α) (P : Params α) {N : Nat} (I_channels : List (Mat α))
    (st : LoopState α N) : LoopState α N :=
  let r := optimizeChannels ext P st.beta st.S_channels I_channels st.w
  let beta := st.beta * P.kappa
  { S_channels := r.1
    w := r.2
    beta := beta
    count := st.count + 1
    S_mats := st.S_mats ++ [r.1.map (convertScaleAbs ext)]
    out := st.out ++ [(st.count, beta)] }

/-- The loop `while (beta < beta_max) { ...; if (count >= iter_max) break; }`
(lines 333-351), run for at most `fuel` evaluations of the loop test. -/
def mainLoop (ext : External α) (P : Params α) {N : Nat} (I_channels : List (Mat α)) :
    Nat → LoopState α N → Option (LoopState α N)
  | 0, _ => none
  | fuel + 1, st =>
    if st.beta < P.beta_max then
      let st' := loopBody ext P I_channels st
      if st'.count ≥ P.iter_max then some st' else mainLoop ext P I_channels fuel st'
    else some st

/-- Channel planes `I_channels` of the input (lines 314-318): 8-bit values converted
and scaled by `1/255`. -/
def normalize (src_channels : List (Mat Nat)) : List (Mat α) :=
  src_channels.map fun c =>
    { rows := c.rows, cols := c.cols, data := fun i j => (c.data i j : α) * (1 / 255) }

/-- Loop state at line 332 for channel planes `I_channels`; `H` and `V` are the
unspecified contents of the freshly allocated buffers. -/
def initialState (P : Params α) (rows cols : Nat) (I_channels : List (Mat α))
    (H V : Nat → Nat → α) : LoopState α (rows * cols) :=
  { S_channels := I_channels
    w := { H := ⟨rows, cols, H⟩, V := ⟨rows, cols, V⟩,
           grad_x := ⟨rows, cols, fun _ _ => 0⟩, grad_y := ⟨rows, cols, fun _ _ => 0⟩,
           g := init rows cols }
    beta := P.beta0
    count := 0
    S_mats := []
    out := [] }

/-- Final loop state of `minimizeL0Gradient` run on the channel planes `I_channels`. -/
def runLoop (ext : External α) (P : Params α) (rows cols : Nat) (I_channels : List (Mat α))
    (H V : Nat → Nat → α) : Option (LoopState α (rows * cols)) :=
  mainLoop ext P I_channels (P.iter_max + 1) (initialState P rows cols I_channels H V)

/-- Result `S_mats` of `minimizeL0Gradient(src)` for a `rows x cols` image with the
given channel planes. -/
def minimizeL0Gradient (ext : External α) (P : Params α) (rows cols : Nat)
    (src_channels : List (Mat Nat)) (H V : Nat → Nat → α) : Option (List (List (Mat Nat))) :=
  (runLoop ext P rows cols (normalize src_channels) H V).map fun st => st.S_mats

/-- The solvers of `ext` return a solution of every system `(beta * A0 + E) s = b`,
`beta >= 0`, of a `rows x cols` image: the behaviour of both strategies when the
solve is carried out exactly. -/
def External.Exact (ext : External α) (rows cols : Nat) : Prop :=
  ∀ (beta : α) (b : Fin (rows * cols) → α), 0 ≤ beta →
    (systemMatrix (init rows cols) beta).mulVec (ext.llt (systemMatrix (init rows cols) beta) b) = b ∧
    (systemMatrix (init rows cols) beta).mulVec (ext.cg (systemMatrix (init rows cols) beta) b) = b

/-- A grid with every entry equal to `c`. -/
def flat (rows cols : Nat) (c : α) : Mat α := ⟨rows, cols, fun _ _ => c⟩

/-- Invariant of the shared buffers of a `rows x cols` run: the gradient buffers
vanish outside the interior, `H` and `V` have the image size, and the operator
matrices are those built by `init`. -/
def WorkInv (rows cols : Nat) (w : Work α (rows * cols)) : Prop :=
  (∀ j i, ¬ (j < rows - 1 ∧ i < cols - 1) → w.grad_x.data j i = 0 ∧ w.grad_y.data j i = 0) ∧
    (w.H.rows = rows ∧ w.H.cols = cols ∧ w.V.rows = rows ∧ w.V.cols = cols) ∧
    w.g.A0 = (init rows cols).A0 ∧ w.g.E = (init rows cols).E ∧
    w.g.GX = (init rows cols).GX ∧ w.g.GY = (init rows cols).GY

end Solver

/-! ## Single-precision penalty weight -/

section Rounding

variable {α : Type} [LinearOrderedField α]

/-- Body of the main loop (lines 334-346) with `beta` a `float` variable: the product of
line 339 is rounded by `fl` when it is stored. The rest is as in `loopBody`. -/
def loopBodyRounded (fl : α → α) (ext : External α) (P : Params α) {N : Nat}
    (I_channels : List (Mat α)) (st : LoopState α N) : LoopState α N :=
  let r := optimizeChannels ext P st.beta st.S_channels I_channels st.w
  let beta := fl (st.beta * P.kappa)
  { S_channels := r.1
    w := r.2
    beta := beta
    count := st.count + 1
    S_mats := st.S_mats ++ [r.1.map (convertScaleAbs ext)]
    out := st.out ++ [(st.count, beta)] }

/-- The loop of lines 333-351 over `loopBodyRounded`, run for at most `fuel` evaluations
of the loop test. -/
def mainLoopRounded (fl : α → α) (ext : External α) (P : Params α) {N : Nat}
    (I_channels : List (Mat α)) : Nat → LoopState α N → Option (LoopState α N)
  | 0, _ => none
  | fuel + 1, st =>
    if st.beta < P.beta_max then
      let st' := loopBodyRounded fl ext P I_channels st
      if st'.count ≥ P.iter_max then some st' else mainLoopRounded fl ext P I_channels fuel st'
    else some st

/-- Final loop state of `minimizeL0Gradient` on the channel planes `I_channels`, with
`beta` a `float` variable rounded by `fl`. -/
def runLoopRounded (fl : α → α) (ext : External α) (P : Params α) (rows cols : Nat)
    (I_channels : List (Mat α)) (H V : Nat → Nat → α) : Option (LoopState α (rows * cols)) :=
  mainLoopRounded fl ext P I_channels (P.iter_max + 1)
    (initialState P rows cols I_channels H V)

end Rounding

/-! ## Configuration file -/

section Config

/-- One call `std::getline(stream, field, delimiter)` on the unread characters `stream`:
`none` when the stream is at its end (nothing is extracted and the call fails), otherwise
the characters before the first delimiter and the stream left after that delimiter. -/
def getline (stream : List Char) (delimiter : Char) : Option (List Char × List Char) :=
  match stream with
  | [] => none
  | _ :: _ =>
    some (stream.takeWhile (fun c => c != delimiter),
      (stream.dropWhile (fun c => c != delimiter)).drop 1)

/-- The loop `while (std::getline(stream, field, delimiter)) result.push_back(field)` of
`Split`, run for at most `fuel` calls of `getline`. -/
def splitLoop (delimiter : Char) :
    Nat → List Char → List (List Char) → Option (List (List Char))
  | 0, _, _ => none
  | fuel + 1, stream, result =>
    match getline stream delimiter with
    | none => some result
    | some (field, rest) => splitLoop delimiter fuel rest (result ++ [field])

/-- Fields of `input`, `Split(input, delimiter)`; strings are lists of characters. -/
def Split (input : List Char) (delimiter : Char) : Option (List (List Char)) :=
  splitLoop delimiter (input.length + 1) input []

variable {α : Type}

/-- Contents of the file written by `saveConfigFile`; `fmt` is the text that
`operator<<` prints for a `float`. -/
def saveConfigFile (fmt : α → List Char) (P : Params α) : List Char :=
  "--lambda ".toList ++ fmt P.lambda ++ " ".toList ++
    ("--beta_max ".toList ++ fmt P.beta_max ++ " ".toList) ++
    ("--kappa ".toList ++ fmt P.kappa ++ " ".toList) ++
    ("--exact ".toList ++ (if P.exact then "true".toList else "false".toList) ++ "\n".toList)

/-- Library routine the program calls and does not define: the values that
`options.parse(argc, argv)` of cxxopts gives for an option name, as `float` and as
`std::string`. -/
structure Cxxopts (α : Type) where
  asFloat : List (List Char) → List Char → α
  asString : List (List Char) → List Char → List Char

/-- Outcome of `parseConfigFile`: `return false`, or `return true` with the parameters
it has stored. -/
inductive Parsed (α : Type) where
  | rejected : Parsed α
  | accepted : Params α → Parsed α

/-- Effect of `parseConfigFile` on a file with contents `file`: the first line is read,
split on spaces and handed to cxxopts after the program name; `iter_max` is the value
the global holds. `none` only if the loop of `Split` ran out of fuel. -/
def parseConfigFile [LinearOrderedField α] (lib : Cxxopts α) (file : List Char) (iter_max : Nat) :
    Option (Parsed α) :=
  let buf := match getline file '\n' with
    | none => []
    | some (line, _) => line
  match Split buf ' ' with
  | none => none
  | some arguments =>
    if arguments.length != 8 then some Parsed.rejected
    else
      let argv := "tmp".toList :: arguments
      some (Parsed.accepted
        { lambda := lib.asFloat argv "lambda".toList
          beta_max := lib.asFloat argv "beta_max".toList
          kappa := lib.asFloat argv "kappa".toList
          exact := lib.asString argv "exact".toList == "true".toList
          beta0 := 2 * lib.asFloat argv "lambda".toList
          iter_max := iter_max })

end Config

/-- Fields joined by single delimiters. -/
def joinFields (delimiter : Char) : List (List Char) → List Char
  | [] => []
  | [t] => t
  | t :: u :: ts => t ++ delimiter :: joinFields delimiter (u :: ts)

/-! ## Concrete inputs -/

section Examples

/-- Library routines for concrete runs: both solvers divide by the diagonal, which
solves a `1 x 1` system exactly; `saturate` rounds down and clips at 255. -/
def exampleExternal : External ℚ :=
  { llt := fun A b p => b p / A p p
    cg := fun A b p => b p / A p p
    saturate := fun x => min 255 (Int.toNat ⌊x⌋) }

/-- A `2 x 2` field with a single non-zero pixel at `(0, 0)`. -/
def exampleField : Mat ℚ := ⟨2, 2, fun i j => if i = 0 ∧ j = 0 then 1 else 0⟩

/-- Buffers of a `2 x 2` run at line 332, with `H` and `V` holding the value 7. -/
def exampleWork : Work ℚ (2 * 2) :=
  { H := flat 2 2 7, V := flat 2 2 7, grad_x := flat 2 2 0, grad_y := flat 2 2 0,
    g := init 2 2 }

/-- Text of a rational for concrete runs: sign, numerator, a slash, denominator. -/
def exampleFmt (q : ℚ) : List Char :=
  (if q < 0 then ['-'] else []) ++ Nat.toDigits 10 q.num.natAbs ++ ['/'] ++
    Nat.toDigits 10 q.den

/-- The argument that follows `--name` in `argv`, if any. -/
def argumentAfter (name : List Char) : List (List Char) → List Char
  | a :: b :: rest => if a == "--".toList ++ name then b else argumentAfter name (b :: rest)
  | _ => []

/-- Option values for concrete runs: the string value of an option is the argument
that follows its flag; numbers are not decoded. -/
def exampleCxxopts : Cxxopts ℚ :=
  { asFloat := fun _ _ => 0
    asString := fun argv name => argumentAfter name argv }

/-- The `4 x 4` field that is 0 everywhere except for a 1 at pixel `(a, b)`. -/
def spike (a b : Nat) : Mat ℚ := ⟨4, 4, fun j i => if j = a ∧ i = b then 1 else 0⟩

/-- Parameters of the concrete scenario: `lambda = 0.01`, `beta0 = 0.02`, `kappa = 2`,
`beta_max = 0.1`, exact solve, `iter_max = 1000`. -/
def scenarioParams : Params ℚ := Params.ofConfig (1 / 100) (1 / 10) 2 true 1000

end Examples

/-! ## Gradient operators -/

section OperatorLemmas

variable {α : Type} [LinearOrderedField α]

lemma flatMap_pixels {β : Type} (rows cols : Nat) (h : Nat → List β) :
    ((List.range rows).flatMap fun i => (List.range cols).flatMap fun j => h (i * cols + j))
      = (List.range (rows * cols)).flatMap h := by
  induction rows with
  | zero => simp
  | succ r ih =>
    rw [List.range_succ, List.flatMap_append, ih, Nat.succ_mul, List.range_add,
      List.flatMap_append]
    simp [List.flatMap_map]

lemma setFromTriplets_flatMap {β : Type} (l : List β) (h : β → List (Triplet α)) (p q : Nat) :
    setFromTriplets (l.flatMap h) p q = (l.map fun a => setFromTriplets (h a) p q).sum := by
  induction l with
  | nil => simp [setFromTriplets]
  | cons a l ih =>
    simp only [setFromTriplets, List.flatMap_cons, List.filter_append, List.map_append,
      List.sum_append, List.map_cons, List.sum_cons] at ih ⊢
    rw [ih]

lemma sum_map_range_single (N p : Nat) (f : Nat → α) (hf : ∀ a, a ≠ p → f a = 0) :
    ((List.range N).map f).sum = if p < N then f p else 0 := by
  induction N with
  | zero => simp
  | succ n ih =>
    rw [List.range_succ, List.map_append, List.sum_append, ih]
    by_cases h1 : p < n
    · have : n ≠ p := by omega
      simp [h1, hf n this, Nat.lt_succ_of_lt h1]
    · by_cases h2 : p = n
      · subst h2; simp
      · have h3 : ¬ p < n + 1 := by omega
        simp [h1, h3, hf n (fun h => h2 h.symm)]

lemma gradientTriplets_x (rows cols : Nat) :
    gradientTriplets rows cols (indices : List (Nat × α)) [] =
      (List.range (rows * cols)).flatMap fun p =>
        Triplet.mk p p (1 : α) ::
          (if p + 1 ≥ rows * cols then [] else [Triplet.mk p (p + 1) (-1 : α)]) := by
  rw [← flatMap_pixels]
  unfold gradientTriplets indices
  refine List.flatMap_congr fun i hi => List.flatMap_congr fun j hj => ?_
  have hi' := List.mem_range.1 hi
  have hj' := List.mem_range.1 hj
  have h0 : ¬ (rows * cols ≤ i * cols + j) := by
    have : i * cols + cols ≤ rows * cols := by
      calc i * cols + cols = (i + 1) * cols := by ring
        _ ≤ rows * cols := Nat.mul_le_mul_right _ hi'
    omega
  by_cases h1 : rows * cols ≤ i * cols + j + 1 <;> simp [h0, h1]

lemma gradientTriplets_y (rows cols : Nat) :
    gradientTriplets rows cols [] (indices : List (Nat × α)) =
      (List.range (rows * cols)).flatMap fun p =>
        Triplet.mk p p (1 : α) ::
          (if p + cols ≥ rows * cols then [] else [Triplet.mk p (p + cols) (-1 : α)]) := by
  rw [← flatMap_pixels]
  unfold gradientTriplets indices
  refine List.flatMap_congr fun i hi => List.flatMap_congr fun j hj => ?_
  have hi' := List.mem_range.1 hi
  have hj' := List.mem_range.1 hj
  have h0 : ¬ (rows * cols ≤ i * cols + j) := by
    have : i * cols + cols ≤ rows * cols := by
      calc i * cols + cols = (i + 1) * cols := by ring
        _ ≤ rows * cols := Nat.mul_le_mul_right _ hi'
    omega
  have h2 : (i + 1) * cols + j = i * cols + j + cols := by ring
  by_cases h1 : rows * cols ≤ i * cols + j + cols <;> simp [h0, h1, h2]

/-- Entry of the matrix assembled from one `+1` on the diagonal and one `-1` at
offset `d` per row, the latter only while in range. -/
lemma setFromTriplets_stencil (N d p q : Nat) (hd : 0 < d) :
    setFromTriplets ((List.range N).flatMap fun a =>
        Triplet.mk a a (1 : α) ::
          (if a + d ≥ N then [] else [Triplet.mk a (a + d) (-1 : α)])) p q =
      if p < N then (if q = p then 1 else if q = p + d ∧ p + d < N then -1 else 0)
      else 0 := by
  rw [setFromTriplets_flatMap, sum_map_range_single _ p]
  · by_cases hp : p < N
    · by_cases hq : q = p
      · subst hq
        have h3 : ¬ (q + d = q) := by omega
        by_cases h1 : N ≤ q + d <;> simp [setFromTriplets, hp, h1, h3]
      · have h2 : ¬ (p = q) := fun h => hq h.symm
        by_cases h1 : N ≤ p + d
        · have h3 : ¬ (q = p + d ∧ p + d < N) := fun h => by omega
          simp [setFromTriplets, hp, h1, hq, h2, h3]
        · by_cases hq1 : q = p + d
          · subst hq1
            have h3 : p + d < N := by omega
            simp [setFromTriplets, hp, h1, h3, hq, hd.ne']
          · have h3 : ¬ (p + d = q) := fun h => hq1 h.symm
            simp [setFromTriplets, hp, h1, hq, hq1, h2, h3]
    · simp [hp]
  · intro a ha
    by_cases h1 : N ≤ a + d <;> simp [setFromTriplets, h1, ha]

/-- Entry formula for the horizontal operator. -/
lemma buildGradientMatrix_x (rows cols p q : Nat) :
    buildGradientMatrix rows cols (indices : List (Nat × α)) [] p q =
      if p < rows * cols then
        (if q = p then 1 else if q = p + 1 ∧ p + 1 < rows * cols then -1 else 0)
      else 0 := by
  unfold buildGradientMatrix
  rw [gradientTriplets_x]
  exact setFromTriplets_stencil _ 1 p q Nat.one_pos

/-- Entry formula for the vertical operator. -/
lemma buildGradientMatrix_y (rows cols p q : Nat) :
    buildGradientMatrix rows cols [] (indices : List (Nat × α)) p q =
      if p < rows * cols then
        (if q = p then 1 else if q = p + cols ∧ p + cols < rows * cols then -1 else 0)
      else 0 := by
  unfold buildGradientMatrix
  rw [gradientTriplets_y]
  rcases Nat.eq_zero_or_pos cols with hc | hc
  · subst hc; simp [setFromTriplets]
  · exact setFromTriplets_stencil _ cols p q hc

lemma GX_apply (rows cols : Nat) (p q : Fin (rows * cols)) :
    (GX rows cols : Matrix _ _ α) p q =
      if q = p then 1 else if q.val = p.val + 1 then -1 else 0 := by
  have hq := q.isLt
  simp only [GX, Matrix.of_apply, buildGradientMatrix_x, p.isLt, if_true, Fin.ext_iff]
  split_ifs <;> first | rfl | (exfalso; omega)

lemma GY_apply (rows cols : Nat) (p q : Fin (rows * cols)) :
    (GY rows cols : Matrix _ _ α) p q =
      if q = p then 1 else if q.val = p.val + cols then -1 else 0 := by
  have hq := q.isLt
  simp only [GY, Matrix.of_apply, buildGradientMatrix_y, p.isLt, if_true, Fin.ext_iff]
  split_ifs <;> first | rfl | (exfalso; omega)

/-- C1. For every `rows` and `cols` (in particular all `rows, cols >= 1`), with
`N = rows * cols`, the matrices built by `init` are exactly:
`GX[p][q] = +1` if `q = p`, `-1` if `q = p + 1` and `p + 1 < N`, and `0` otherwise;
`GY[p][q] = +1` if `q = p`, `-1` if `q = p + cols` and `p + cols < N`, and `0`
otherwise. No other entry is non-zero, and a row whose `-1` is omitted keeps the
plain `+1` with nothing added to it. -/
theorem init_gradient_matrices_exact (rows cols : Nat) (p q : Fin (rows * cols)) :
    (init rows cols : Globals α (rows * cols)).GX p q =
        (if q = p then 1
         else if q.val = p.val + 1 ∧ p.val + 1 < rows * cols then -1 else 0) ∧
      (init rows cols : Globals α (rows * cols)).GY p q =
        (if q = p then 1
         else if q.val = p.val + cols ∧ p.val + cols < rows * cols then -1 else 0) := by
  have hq := q.isLt
  refine ⟨?_, ?_⟩
  · show GX rows cols p q = _
    rw [GX_apply]
    split_ifs <;> first | rfl | (exfalso; omega)
  · show GY rows cols p q = _
    rw [GY_apply]
    split_ifs <;> first | rfl | (exfalso; omega)

/-- C2. The claim (boundary entries of `GX` are dropped, not wrapped) fails on the
code: on a `2 x 2` grid the row of `GX` for pixel `(0, 1)`, the last column of the
first image row, carries `-1` at index `2`, the index of pixel `(1, 0)`. -/
theorem GX_last_column_wraps_to_next_row :
    (init 2 2 : Globals ℚ (2 * 2)).GX ⟨1, by decide⟩ ⟨2, by decide⟩ = -1 := by
  show GX 2 2 _ _ = _
  rw [GX_apply]
  simp [Fin.ext_iff]

end OperatorLemmas

/-! ## The linear system -/

section SystemLemmas

open Matrix

variable {α : Type} [LinearOrderedField α]

lemma E_eq_one (rows cols : Nat) : (init rows cols : Globals α (rows * cols)).E = 1 := by
  ext p q
  show constructSparseIdentityMatrix (rows * cols) p.val q.val = _
  unfold constructSparseIdentityMatrix
  have h := setFromTriplets_flatMap (List.range (rows * cols))
    (fun i => [Triplet.mk i i (1 : α)]) p.val q.val
  have e : (List.range (rows * cols)).flatMap (fun i => [Triplet.mk i i (1 : α)]) =
      (List.range (rows * cols)).map fun i => Triplet.mk i i (1 : α) := by
    induction (List.range (rows * cols)) with
    | nil => rfl
    | cons a l ih => simp [List.flatMap_cons, ih]
  rw [e] at h
  rw [h, sum_map_range_single _ p.val]
  · by_cases hpq : p = q
    · subst hpq; simp [setFromTriplets, p.isLt]
    · have : ¬ (p.val = q.val) := fun h => hpq (Fin.ext h)
      simp [setFromTriplets, p.isLt, this, Matrix.one_apply, hpq]
  · intro a ha
    simp [setFromTriplets, ha]

lemma dotProduct_gram {N : Nat} (G : Matrix (Fin N) (Fin N) α) (x : Fin N → α) :
    x ⬝ᵥ (G.transpose * G) *ᵥ x = (G *ᵥ x) ⬝ᵥ (G *ᵥ x) := by
  rw [← Matrix.mulVec_mulVec, Matrix.dotProduct_mulVec, Matrix.vecMul_transpose]

lemma dotProduct_self_nonneg {N : Nat} (y : Fin N → α) : 0 ≤ y ⬝ᵥ y :=
  Finset.sum_nonneg fun i _ => mul_self_nonneg (y i)

lemma dotProduct_self_pos {N : Nat} (y : Fin N → α) (hy : y ≠ 0) : 0 < y ⬝ᵥ y := by
  obtain ⟨i, hi⟩ := Function.ne_iff.1 hy
  exact Finset.sum_pos' (fun i _ => mul_self_nonneg (y i)) ⟨i, Finset.mem_univ i, mul_self_pos.2 hi⟩

lemma A0_eq (rows cols : Nat) : (init rows cols : Globals α (rows * cols)).A0 =
    (GX rows cols).transpose * GX rows cols + (GY rows cols).transpose * GY rows cols := rfl

lemma A0_isSymm (rows cols : Nat) : (init rows cols : Globals α (rows * cols)).A0.IsSymm := by
  rw [A0_eq]
  exact (Matrix.isSymm_transpose_mul_self _).add (Matrix.isSymm_transpose_mul_self _)

lemma A0_quadratic (rows cols : Nat) (x : Fin (rows * cols) → α) :
    x ⬝ᵥ (init rows cols : Globals α (rows * cols)).A0 *ᵥ x =
      (GX rows cols *ᵥ x) ⬝ᵥ (GX rows cols *ᵥ x) + (GY rows cols *ᵥ x) ⬝ᵥ (GY rows cols *ᵥ x) := by
  rw [A0_eq, Matrix.add_mulVec, Matrix.dotProduct_add, dotProduct_gram, dotProduct_gram]

lemma A0_posSemidef (rows cols : Nat) (x : Fin (rows * cols) → α) :
    0 ≤ x ⬝ᵥ (init rows cols : Globals α (rows * cols)).A0 *ᵥ x := by
  rw [A0_quadratic]
  exact add_nonneg (dotProduct_self_nonneg _) (dotProduct_self_nonneg _)

lemma systemMatrix_eq (rows cols : Nat) (beta : α) :
    systemMatrix (init rows cols) beta = beta • (init rows cols : Globals α (rows * cols)).A0 + 1 := by
  unfold systemMatrix; rw [E_eq_one]

lemma systemMatrix_isSymm (rows cols : Nat) (beta : α) :
    (systemMatrix (init rows cols) beta).IsSymm := by
  rw [systemMatrix_eq]
  exact ((A0_isSymm rows cols).smul beta).add Matrix.isSymm_one

lemma systemMatrix_quadratic (rows cols : Nat) (beta : α) (x : Fin (rows * cols) → α) :
    x ⬝ᵥ systemMatrix (init rows cols) beta *ᵥ x =
      beta * (x ⬝ᵥ (init rows cols : Globals α (rows * cols)).A0 *ᵥ x) + x ⬝ᵥ x := by
  rw [systemMatrix_eq, Matrix.add_mulVec, Matrix.dotProduct_add, Matrix.smul_mulVec_assoc,
    Matrix.dotProduct_smul, Matrix.one_mulVec, smul_eq_mul]

lemma systemMatrix_posDef (rows cols : Nat) (beta : α) (hb : 0 ≤ beta)
    (x : Fin (rows * cols) → α) (hx : x ≠ 0) :
    0 < x ⬝ᵥ systemMatrix (init rows cols) beta *ᵥ x := by
  rw [systemMatrix_quadratic]
  exact add_pos_of_nonneg_of_pos (mul_nonneg hb (A0_posSemidef rows cols x))
    (dotProduct_self_pos x hx)

lemma systemMatrix_injective (rows cols : Nat) (beta : α) (hb : 0 ≤ beta) :
    Function.Injective (systemMatrix (init rows cols) beta).mulVec := by
  intro x y hxy
  by_contra hne
  have hd : x - y ≠ 0 := sub_ne_zero.2 hne
  have := systemMatrix_posDef rows cols beta hb (x - y) hd
  rw [Matrix.mulVec_sub, hxy, sub_self, Matrix.dotProduct_zero] at this
  exact lt_irrefl _ this

lemma systemMatrix_existsUnique (rows cols : Nat) (beta : α) (hb : 0 ≤ beta)
    (b : Fin (rows * cols) → α) :
    ∃! s, systemMatrix (init rows cols) beta *ᵥ s = b := by
  have hinj := systemMatrix_injective rows cols beta hb
  have hu := Matrix.mulVec_injective_iff_isUnit.1 hinj
  obtain ⟨u, hu⟩ := hu
  refine ⟨(↑u⁻¹ : Matrix _ _ α) *ᵥ b, ?_, fun y hy => hinj ?_⟩
  · simp only
    rw [← hu, Matrix.mulVec_mulVec, Units.mul_inv, Matrix.one_mulVec]
  · rw [hy, ← hu, Matrix.mulVec_mulVec, Units.mul_inv, Matrix.one_mulVec]

/-- Quadratic form of a principal submatrix: it is the form of the full matrix at the
vector extended by zero. -/
lemma submatrix_quadratic {N k : Nat} (M : Matrix (Fin N) (Fin N) α) (e : Fin k → Fin N)
    (x : Fin k → α) :
    x ⬝ᵥ (M.submatrix e e) *ᵥ x =
      (((1 : Matrix (Fin N) (Fin N) α).submatrix id e) *ᵥ x) ⬝ᵥ
        M *ᵥ (((1 : Matrix (Fin N) (Fin N) α).submatrix id e) *ᵥ x) := by
  have h : M.submatrix e e =
      ((1 : Matrix (Fin N) (Fin N) α).submatrix id e).transpose * M *
        ((1 : Matrix (Fin N) (Fin N) α).submatrix id e) := by
    ext i j
    simp [Matrix.mul_apply, Matrix.one_apply, Finset.sum_ite_eq, Finset.sum_ite_eq']
  rw [h, ← Matrix.mulVec_mulVec, ← Matrix.mulVec_mulVec, Matrix.dotProduct_mulVec,
    Matrix.vecMul_transpose]

lemma extend_apply {N k : Nat} (e : Fin k → Fin N) (he : Function.Injective e)
    (x : Fin k → α) (j : Fin k) :
    (((1 : Matrix (Fin N) (Fin N) α).submatrix id e) *ᵥ x) (e j) = x j := by
  simp [Matrix.mulVec, Matrix.dotProduct, Matrix.one_apply, he.eq_iff]

lemma submatrix_posDef {N k : Nat} (M : Matrix (Fin N) (Fin N) α)
    (hM : ∀ x : Fin N → α, x ≠ 0 → 0 < x ⬝ᵥ M *ᵥ x)
    (e : Fin k → Fin N) (he : Function.Injective e) (x : Fin k → α) (hx : x ≠ 0) :
    0 < x ⬝ᵥ (M.submatrix e e) *ᵥ x := by
  rw [submatrix_quadratic]
  apply hM
  intro h0
  apply hx
  funext j
  have := extend_apply e he x j
  rw [h0] at this
  exact this.symm

lemma principal_minor_pos (rows cols : Nat) (beta : ℝ) (hb : 0 ≤ beta) (k : Nat)
    (e : Fin k → Fin (rows * cols)) (he : Function.Injective e) :
    0 < ((systemMatrix (init rows cols) beta).submatrix e e).det := by
  have hpd : ((systemMatrix (init rows cols) beta).submatrix e e).PosDef := by
    refine ⟨?_, fun x hx => ?_⟩
    · have := (systemMatrix_isSymm rows cols beta).submatrix e
      rw [Matrix.IsHermitian, Matrix.conjTranspose_eq_transpose_of_trivial]
      exact this
    · rw [star_trivial]
      exact submatrix_posDef _ (systemMatrix_posDef rows cols beta hb) e he x hx
  exact hpd.det_pos

/-- C3. For every `rows` and `cols` (in particular all `rows, cols >= 2`), the matrix
`A0 = GXᵗ·GX + GYᵗ·GY` computed by `init` is symmetric, `A0[p][q] = A0[q][p]`, and
positive semidefinite, `xᵗ·A0·x >= 0` for every vector `x` of length `rows * cols`. -/
theorem init_A0_symmetric_posSemidef (rows cols : Nat) :
    (∀ p q : Fin (rows * cols),
        (init rows cols : Globals α (rows * cols)).A0 p q =
          (init rows cols : Globals α (rows * cols)).A0 q p) ∧
      ∀ x : Fin (rows * cols) → α,
        0 ≤ x ⬝ᵥ (init rows cols : Globals α (rows * cols)).A0 *ᵥ x :=
  ⟨fun p q => ((A0_isSymm rows cols).apply p q).symm, A0_posSemidef rows cols⟩

/-- C4. For every image size and every `beta >= 0`, over the reals, the system matrix
`A = beta * A0 + E` assembled in `computeS` has `E` the identity, is symmetric and is
positive definite (`xᵗ·A·x > 0` for every non-zero `x`); for every right-hand side
`b = I + beta * (GXᵗ·H + GYᵗ·V)` the system `A·s = b` has exactly one solution; and
every principal minor of `A`, in any elimination order, is positive, so that no pivot
of a Cholesky factorization can be non-positive and the factorization cannot fail. -/
theorem computeS_system_spd_unique (rows cols : Nat) (beta : ℝ) (hb : 0 ≤ beta) :
    (init rows cols : Globals ℝ (rows * cols)).E = 1 ∧
      (systemMatrix (init rows cols) beta).IsSymm ∧
      (∀ x : Fin (rows * cols) → ℝ, x ≠ 0 →
        0 < x ⬝ᵥ systemMatrix (init rows cols) beta *ᵥ x) ∧
      (∀ I_vec H_vec V_vec : Nat → ℝ,
        ∃! s, systemMatrix (init rows cols) beta *ᵥ s =
          rightHandSide (init rows cols) I_vec H_vec V_vec beta) ∧
      ∀ (k : Nat) (e : Fin k → Fin (rows * cols)), Function.Injective e →
        0 < ((systemMatrix (init rows cols) beta).submatrix e e).det :=
  ⟨E_eq_one rows cols, systemMatrix_isSymm rows cols beta,
    systemMatrix_posDef rows cols beta hb,
    fun _ _ _ => systemMatrix_existsUnique rows cols beta hb _,
    principal_minor_pos rows cols beta hb⟩

/-- Instance of C4 on a `2 x 2` image with `beta = 1`. -/
theorem computeS_system_spd_unique_witness :
    (0 : ℝ) ≤ 1 ∧
      (systemMatrix (init 2 2) (1 : ℝ)).IsSymm ∧
      ∀ x : Fin (2 * 2) → ℝ, x ≠ 0 → 0 < x ⬝ᵥ systemMatrix (init 2 2) (1 : ℝ) *ᵥ x :=
  ⟨zero_le_one, (computeS_system_spd_unique 2 2 1 zero_le_one).2.1,
    (computeS_system_spd_unique 2 2 1 zero_le_one).2.2.1⟩

end SystemLemmas

/-! ## Loop nests, grids and vectors -/

section FieldLemmas

variable {α : Type}

lemma forEachPixel_succ {σ : Type} (rows cols : Nat) (body : Nat → Nat → σ → σ) (s : σ) :
    forEachPixel (rows + 1) cols body s =
      (List.range cols).foldl (fun s j => body rows j s) (forEachPixel rows cols body s) := by
  simp [forEachPixel, List.range_succ, List.foldl_append]

/-- One row of writes into a pair of grids. -/
lemma foldl_set_pair (cols i : Nat) (f g : Nat → Nat → α) (a b : Mat α) :
    (List.range cols).foldl (fun s j => ((s.1.set i j (f i j), s.2.set i j (g i j)) : Mat α × Mat α))
        (a, b) =
      ({ a with data := fun i' j' => if i' = i ∧ j' < cols then f i' j' else a.data i' j' },
       { b with data := fun i' j' => if i' = i ∧ j' < cols then g i' j' else b.data i' j' }) := by
  induction cols with
  | zero => simp
  | succ c ih =>
    rw [List.range_succ, List.foldl_append, ih]
    simp only [List.foldl_cons, List.foldl_nil, Mat.set, Prod.mk.injEq]
    constructor <;>
    · ext i' j' <;> try rfl
      simp only
      split_ifs with h1 h2 h3 h4 h5 <;>
        first | rfl | (exfalso; omega) | (obtain ⟨rfl, rfl⟩ := h1; rfl)

/-- A loop nest that writes `f i j` and `g i j` at `(i, j)` of two grids. -/
lemma forEachPixel_set_pair (rows cols : Nat) (f g : Nat → Nat → α) (a b : Mat α) :
    forEachPixel rows cols
        (fun i j s => ((s.1.set i j (f i j), s.2.set i j (g i j)) : Mat α × Mat α)) (a, b) =
      ({ a with data := fun i j => if i < rows ∧ j < cols then f i j else a.data i j },
       { b with data := fun i j => if i < rows ∧ j < cols then g i j else b.data i j }) := by
  induction rows with
  | zero => simp [forEachPixel]
  | succ r ih =>
    rw [forEachPixel_succ, ih, foldl_set_pair]
    simp only [Prod.mk.injEq]
    constructor <;>
    · ext i' j' <;> try rfl
      simp only
      split_ifs with h1 h2 h3 h4 h5 <;> first | rfl | (exfalso; omega)


lemma foldl_set (cols i : Nat) (f : Nat → Nat → α) (a : Mat α) :
    (List.range cols).foldl (fun (m : Mat α) j => m.set i j (f i j)) a =
      { a with data := fun i' j' => if i' = i ∧ j' < cols then f i' j' else a.data i' j' } := by
  induction cols with
  | zero => simp
  | succ c ih =>
    rw [List.range_succ, List.foldl_append, ih]
    simp only [List.foldl_cons, List.foldl_nil, Mat.set]
    ext i' j' <;> try rfl
    simp only
    split_ifs with h1 h2 h3 h4 h5 <;>
      first | rfl | (exfalso; omega) | (obtain ⟨rfl, rfl⟩ := h1; rfl)

/-- A loop nest that writes `f i j` at `(i, j)` of one grid. -/
lemma forEachPixel_set (rows cols : Nat) (f : Nat → Nat → α) (a : Mat α) :
    forEachPixel rows cols (fun i j (m : Mat α) => m.set i j (f i j)) a =
      { a with data := fun i j => if i < rows ∧ j < cols then f i j else a.data i j } := by
  induction rows with
  | zero => simp [forEachPixel]
  | succ r ih =>
    rw [forEachPixel_succ, ih, foldl_set]
    ext i' j' <;> try rfl
    simp only
    split_ifs with h1 h2 h3 h4 h5 <;> first | rfl | (exfalso; omega)

lemma foldl_vecSet (c base : Nat) (f : Nat → α) (v : Nat → α) :
    (List.range c).foldl (fun (v : Nat → α) j => vecSet v (base + j) (f j)) v =
      fun k => if base ≤ k ∧ k < base + c then f (k - base) else v k := by
  induction c with
  | zero =>
    funext k
    have : ¬ (base ≤ k ∧ k < base + 0) := by omega
    simp only [List.range_zero, List.foldl_nil, this, if_false]
  | succ c ih =>
    rw [List.range_succ, List.foldl_append, ih]
    simp only [List.foldl_cons, List.foldl_nil]
    funext k
    unfold vecSet
    by_cases hk : k = base + c
    · subst hk
      have h3 : base ≤ base + c ∧ base + c < base + (c + 1) := by omega
      simp only [if_true, h3, and_self, Nat.add_sub_cancel_left]
    · simp only [hk, if_false]
      by_cases h2 : base ≤ k ∧ k < base + c
      · have h3 : base ≤ k ∧ k < base + (c + 1) := by omega
        simp only [h2, h3, and_self, if_true]
      · have h3 : ¬ (base ≤ k ∧ k < base + (c + 1)) := by omega
        simp only [h2, h3, if_false]

/-- A loop nest that writes `f i j` at position `i * cols + j` of a vector. -/
lemma forEachPixel_vecSet (rows cols : Nat) (f : Nat → Nat → α) (v : Nat → α) :
    forEachPixel rows cols (fun i j (v : Nat → α) => vecSet v (i * cols + j) (f i j)) v =
      fun k => if k < rows * cols then f (k / cols) (k % cols) else v k := by
  induction rows with
  | zero => funext k; simp [forEachPixel]
  | succ r ih =>
    rw [forEachPixel_succ, ih, foldl_vecSet cols (r * cols) (f r)]
    funext k
    have hmul : (r + 1) * cols = r * cols + cols := by ring
    by_cases h1 : r * cols ≤ k ∧ k < r * cols + cols
    · have hc : 0 < cols := by omega
      have hdiv : k / cols = r := by
        apply Nat.div_eq_of_lt_le
        · exact h1.1
        · rw [hmul]; exact h1.2
      have hmod : k % cols = k - r * cols := by
        have := Nat.div_add_mod k cols
        rw [hdiv, Nat.mul_comm cols r] at this
        omega
      have h2 : k < (r + 1) * cols := by omega
      simp only [h1, h2, and_self, if_true, hdiv, hmod]
    · simp only [h1, if_false]
      by_cases h3 : k < r * cols
      · have h2 : k < (r + 1) * cols := by omega
        simp only [h3, h2, if_true]
      · have h2 : ¬ k < (r + 1) * cols := by omega
        simp only [h3, h2, if_false]

lemma index_div (cols i j : Nat) (hj : j < cols) : (i * cols + j) / cols = i := by
  rw [Nat.mul_comm, Nat.mul_add_div (by omega), Nat.div_eq_of_lt hj, Nat.add_zero]

lemma index_mod (cols i j : Nat) (hj : j < cols) : (i * cols + j) % cols = j := by
  rw [Nat.mul_comm, Nat.mul_add_mod, Nat.mod_eq_of_lt hj]

lemma index_lt (rows cols i j : Nat) (hi : i < rows) (hj : j < cols) :
    i * cols + j < rows * cols := by
  calc i * cols + j < i * cols + cols := by omega
    _ = (i + 1) * cols := by ring
    _ ≤ rows * cols := Nat.mul_le_mul_right _ hi

lemma cvMat2Vec_apply (mat : Mat α) (vec : Nat → α) (k : Nat) :
    cvMat2Vec mat vec k =
      if k < mat.rows * mat.cols then mat.data (k / mat.cols) (k % mat.cols) else vec k := by
  unfold cvMat2Vec
  rw [forEachPixel_vecSet]

lemma vec2CvMat_eq (vec : Nat → α) (mat : Mat α) (rows cols : Nat) :
    vec2CvMat vec mat rows cols =
      { mat with data := fun i j => if i < rows ∧ j < cols then vec (i * cols + j)
                                     else mat.data i j } := by
  unfold vec2CvMat
  rw [forEachPixel_set]

lemma computeGradient_eq [Sub α] (mat grad_x grad_y : Mat α) :
    computeGradient mat grad_x grad_y =
      ({ grad_x with data := fun i j => if i < mat.rows - 1 ∧ j < mat.cols - 1
            then mat.data i j - mat.data i (j + 1) else grad_x.data i j },
       { grad_y with data := fun i j => if i < mat.rows - 1 ∧ j < mat.cols - 1
            then mat.data i j - mat.data (i + 1) j else grad_y.data i j }) := by
  unfold computeGradient
  rw [forEachPixel_set_pair]

lemma toFin_cvMat2Vec (I : Mat α) (v : Nat → α) (rows cols : Nat) (hr : I.rows = rows)
    (hc : I.cols = cols) :
    toFin (rows * cols) (cvMat2Vec I v) = fun p => I.data (p.val / cols) (p.val % cols) := by
  funext p
  simp only [toFin, cvMat2Vec_apply, hr, hc, p.isLt, if_true]

lemma toFin_cvMat2Vec_zero [Zero α] (M : Mat α) (v : Nat → α) (rows cols : Nat)
    (hr : M.rows = rows) (hc : M.cols = cols) (h0 : ∀ j i, j < rows → i < cols → M.data j i = 0) :
    toFin (rows * cols) (cvMat2Vec M v) = 0 := by
  rw [toFin_cvMat2Vec M v rows cols hr hc]
  funext p
  have hcols : 0 < cols := Nat.pos_of_ne_zero fun h => by
    have := p.isLt; simp [h] at this
  have hp : p.val < cols * rows := lt_of_lt_of_eq p.isLt (Nat.mul_comm rows cols)
  exact h0 _ _ (Nat.div_lt_of_lt_mul hp) (Nat.mod_lt _ hcols)

/-- C6. `computeGradient` writes only interior entries: for every field `S` and every
prior content of `grad_x`, `grad_y`, after the call `grad_x(j,i) = S(j,i) - S(j,i+1)`
and `grad_y(j,i) = S(j,i) - S(j+1,i)` for all `j < rows-1` and `i < cols-1`, while
every other entry, in particular every entry of the last row or the last column of
`grad_x` and `grad_y`, equals its value before the call. -/
theorem computeGradient_writes_interior_only [Sub α] (S grad_x grad_y : Mat α) (j i : Nat) :
    ((j < S.rows - 1 ∧ i < S.cols - 1) →
        (computeGradient S grad_x grad_y).1.data j i = S.data j i - S.data j (i + 1) ∧
        (computeGradient S grad_x grad_y).2.data j i = S.data j i - S.data (j + 1) i) ∧
      (¬ (j < S.rows - 1 ∧ i < S.cols - 1) →
        (computeGradient S grad_x grad_y).1.data j i = grad_x.data j i ∧
        (computeGradient S grad_x grad_y).2.data j i = grad_y.data j i) := by
  rw [computeGradient_eq]
  refine ⟨fun h => ?_, fun h => ?_⟩
  · simp only [h, and_self, if_true]
  · simp only [h, if_false, and_self]

/-- C8. Grid/vector round trip. For every `rows x cols` field `M`, copying `M` to a
vector and back gives `M` again, at every pixel of any target grid and exactly `M`
when written back in place; for every vector `v`, copying `v` into a `rows x cols`
grid and back gives `v` again at every index below `rows * cols`, and exactly `v`
when written back in place. Both directions use the row-major index `i * cols + j`:
pixel `(i, j)` is stored at vector position `i * cols + j` and read back from it. -/
theorem vec2CvMat_cvMat2Vec_roundtrip (M M0 : Mat α) (v v0 : Nat → α) (rows cols : Nat)
    (hr : M0.rows = rows) (hc : M0.cols = cols) :
    (∀ i j, i < M.rows → j < M.cols →
        (vec2CvMat (cvMat2Vec M v0) M0 M.rows M.cols).data i j = M.data i j) ∧
      vec2CvMat (cvMat2Vec M v0) M M.rows M.cols = M ∧
      (∀ k, k < rows * cols → cvMat2Vec (vec2CvMat v M0 rows cols) v0 k = v k) ∧
      cvMat2Vec (vec2CvMat v M0 rows cols) v = v ∧
      (∀ i j, i < M.rows → j < M.cols → cvMat2Vec M v0 (i * M.cols + j) = M.data i j) ∧
      (∀ i j, i < rows → j < cols → (vec2CvMat v M0 rows cols).data i j = v (i * cols + j)) := by
  have hto : ∀ i j, i < M.rows → j < M.cols →
      cvMat2Vec M v0 (i * M.cols + j) = M.data i j := by
    intro i j hi hj
    rw [cvMat2Vec_apply, if_pos (index_lt _ _ _ _ hi hj), index_div _ _ _ hj,
      index_mod _ _ _ hj]
  have hback : ∀ (w : Nat → α) k, k < rows * cols →
      cvMat2Vec (vec2CvMat v M0 rows cols) w k = v k := by
    intro w k hk
    have hcols : 0 < cols := Nat.pos_of_ne_zero fun h => by simp [h] at hk
    have hdiv : k / cols < rows := Nat.div_lt_of_lt_mul (by rwa [Nat.mul_comm] at hk)
    have hmod : k % cols < cols := Nat.mod_lt _ hcols
    have hk' : k / cols * cols + k % cols = k := by
      rw [Nat.mul_comm]; exact Nat.div_add_mod k cols
    rw [cvMat2Vec_apply, vec2CvMat_eq]
    simp only [hr, hc, hk, if_true, hdiv, hmod, and_self, hk']
  refine ⟨?_, ?_, hback v0, ?_, hto, ?_⟩
  · intro i j hi hj
    rw [vec2CvMat_eq]
    simp only [hi, hj, and_self, if_true]
    exact hto i j hi hj
  · rw [vec2CvMat_eq]
    ext i j <;> try rfl
    simp only
    split_ifs with h
    · rw [cvMat2Vec_apply, if_pos (index_lt _ _ _ _ h.1 h.2), index_div _ _ _ h.2,
        index_mod _ _ _ h.2]
    · rfl
  · funext k
    by_cases hk : k < rows * cols
    · exact hback v k hk
    · rw [cvMat2Vec_apply, vec2CvMat_eq]
      simp only [hr, hc, hk, if_false]
  · intro i j hi hj
    rw [vec2CvMat_eq]
    simp only [hi, hj, and_self, if_true]

/-- Instance of C8 on a `2 x 2` grid: the four entries come back in place. -/
theorem vec2CvMat_cvMat2Vec_roundtrip_witness :
    (exampleField.rows = 2 ∧ exampleField.cols = 2) ∧
      vec2CvMat (cvMat2Vec exampleField (fun _ => 0)) exampleField 2 2 = exampleField ∧
      cvMat2Vec (vec2CvMat (fun k => (k : ℚ)) exampleField 2 2) (fun _ => 0) 3 = 3 :=
  ⟨⟨rfl, rfl⟩,
    (vec2CvMat_cvMat2Vec_roundtrip exampleField exampleField (fun k => (k : ℚ)) (fun _ => 0)
      2 2 rfl rfl).2.1,
    by
      have h := (vec2CvMat_cvMat2Vec_roundtrip exampleField exampleField (fun k => (k : ℚ))
        (fun _ => 0) 2 2 rfl rfl).2.2.1 3 (by decide)
      simpa using h⟩

end FieldLemmas

/-! ## Shrinkage step -/

section ShrinkLemmas

variable {α : Type} [LinearOrderedField α]

lemma shrink_eq (lambda beta : α) (rows cols : Nat) (grad_x grad_y H V : Mat α) :
    shrink lambda beta rows cols grad_x grad_y H V =
      ({ H with data := fun j i => if j < rows ∧ i < cols then
            (if grad_x.data j i * grad_x.data j i + grad_y.data j i * grad_y.data j i
                < lambda / beta then 0 else grad_x.data j i)
            else H.data j i },
       { V with data := fun j i => if j < rows ∧ i < cols then
            (if grad_x.data j i * grad_x.data j i + grad_y.data j i * grad_y.data j i
                < lambda / beta then 0 else grad_y.data j i)
            else V.data j i }) := by
  unfold shrink
  rw [← forEachPixel_set_pair]
  congr 1
  funext j i hv
  simp only
  split_ifs <;> rfl

lemma optimize_H (ext : External α) (P : Params α) {N : Nat} (S I : Mat α) (w : Work α N)
    (beta : α) :
    (optimize ext P S I w beta).2.H =
      (shrink P.lambda beta S.rows S.cols (computeGradient S w.grad_x w.grad_y).1
        (computeGradient S w.grad_x w.grad_y).2 w.H w.V).1 := rfl

lemma optimize_V (ext : External α) (P : Params α) {N : Nat} (S I : Mat α) (w : Work α N)
    (beta : α) :
    (optimize ext P S I w beta).2.V =
      (shrink P.lambda beta S.rows S.cols (computeGradient S w.grad_x w.grad_y).1
        (computeGradient S w.grad_x w.grad_y).2 w.H w.V).2 := rfl

/-- Values of `H` and `V` at an interior pixel after `optimize`. -/
lemma optimize_HV_interior (ext : External α) (P : Params α) {N : Nat} (S I : Mat α)
    (w : Work α N) (beta : α) (j i : Nat) (hj : j < S.rows - 1) (hi : i < S.cols - 1) :
    (optimize ext P S I w beta).2.H.data j i =
        (if (S.data j i - S.data j (i + 1)) * (S.data j i - S.data j (i + 1)) +
            (S.data j i - S.data (j + 1) i) * (S.data j i - S.data (j + 1) i)
              < P.lambda / beta then 0 else S.data j i - S.data j (i + 1)) ∧
      (optimize ext P S I w beta).2.V.data j i =
        (if (S.data j i - S.data j (i + 1)) * (S.data j i - S.data j (i + 1)) +
            (S.data j i - S.data (j + 1) i) * (S.data j i - S.data (j + 1) i)
              < P.lambda / beta then 0 else S.data j i - S.data (j + 1) i) := by
  have hj' : j < S.rows := by omega
  have hi' : i < S.cols := by omega
  rw [optimize_H, optimize_V, shrink_eq, computeGradient_eq]
  simp only [hj, hi, hj', hi', and_self, if_true]

/-- C5. Shrinkage rule of `optimize`: for every estimate field `S`, every `lambda` and
`beta > 0`, and every pixel `(j,i)` with `j < rows-1` and `i < cols-1`, with
`gx = S(j,i) - S(j,i+1)` and `gy = S(j,i) - S(j+1,i)`: after the step
`H(j,i) = V(j,i) = 0` if `gx^2 + gy^2 < lambda/beta` (strict), and otherwise
`H(j,i) = gx` and `V(j,i) = gy`. The decision at a pixel depends on no other pixel:
any other call whose field has the same `gx` and `gy` at `(j,i)`, whatever its other
entries, its input plane, its buffers and its solver, gives the same `H(j,i)`, `V(j,i)`. -/
theorem optimize_shrinkage_rule (ext : External α) (P : Params α) {N : Nat} (S I : Mat α)
    (w : Work α N) (beta : α) (j i : Nat) (_hbeta : 0 < beta)
    (hj : j < S.rows - 1) (hi : i < S.cols - 1) :
    ((S.data j i - S.data j (i + 1)) ^ 2 + (S.data j i - S.data (j + 1) i) ^ 2
          < P.lambda / beta →
        (optimize ext P S I w beta).2.H.data j i = 0 ∧
        (optimize ext P S I w beta).2.V.data j i = 0) ∧
      (¬ ((S.data j i - S.data j (i + 1)) ^ 2 + (S.data j i - S.data (j + 1) i) ^ 2
          < P.lambda / beta) →
        (optimize ext P S I w beta).2.H.data j i = S.data j i - S.data j (i + 1) ∧
        (optimize ext P S I w beta).2.V.data j i = S.data j i - S.data (j + 1) i) ∧
      (∀ (ext' : External α) (N' : Nat) (S' I' : Mat α) (w' : Work α N'),
        j < S'.rows - 1 → i < S'.cols - 1 →
        S'.data j i - S'.data j (i + 1) = S.data j i - S.data j (i + 1) →
        S'.data j i - S'.data (j + 1) i = S.data j i - S.data (j + 1) i →
        (optimize ext' P S' I' w' beta).2.H.data j i = (optimize ext P S I w beta).2.H.data j i ∧
        (optimize ext' P S' I' w' beta).2.V.data j i = (optimize ext P S I w beta).2.V.data j i) := by
  have h := optimize_HV_interior ext P S I w beta j i hj hi
  rw [← pow_two, ← pow_two] at h
  refine ⟨fun hlt => ?_, fun hge => ?_, ?_⟩
  · rw [h.1, h.2, if_pos hlt, if_pos hlt]; exact ⟨rfl, rfl⟩
  · rw [h.1, h.2, if_neg hge, if_neg hge]; exact ⟨rfl, rfl⟩
  · intro ext' N' S' I' w' hj' hi' hx hy
    have h' := optimize_HV_interior ext' P S' I' w' beta j i hj' hi'
    rw [← pow_two, ← pow_two, hx, hy] at h'
    rw [h.1, h.2, h'.1, h'.2]
    exact ⟨rfl, rfl⟩

/-- Instance of C5: on the `2 x 2` field with a single 1 at `(0,0)` and
`lambda = beta = 1`, the gradient `(1, 1)` at `(0,0)` is kept. -/
theorem optimize_shrinkage_rule_witness :
    (0 : ℚ) < 1 ∧
      (optimize exampleExternal (Params.ofConfig 1 8 2 true 1000) exampleField exampleField
        exampleWork 1).2.H.data 0 0 = 1 ∧
      (optimize exampleExternal (Params.ofConfig 1 8 2 true 1000) exampleField exampleField
        exampleWork 1).2.V.data 0 0 = 1 := by
  have h := (optimize_shrinkage_rule exampleExternal (Params.ofConfig 1 8 2 true 1000)
    exampleField exampleField exampleWork 1 0 0 one_pos (by decide) (by decide)).2.1
  refine ⟨one_pos, ?_⟩
  have h2 := h (by norm_num [exampleField, Params.ofConfig])
  simpa [exampleField] using h2

end ShrinkLemmas

/-! ## Continuation schedule -/

section LoopLemmas

variable {α : Type} [LinearOrderedField α]

section
variable (ext : External α) (P : Params α) {N : Nat} (I_channels : List (Mat α))

lemma iterate_beta (n : Nat) (st : LoopState α N) :
    ((loopBody ext P I_channels)^[n] st).beta = st.beta * P.kappa ^ n := by
  induction n with
  | zero => simp
  | succ n ih =>
    rw [Function.iterate_succ_apply', pow_succ, ← mul_assoc, ← ih]
    rfl

lemma iterate_count (n : Nat) (st : LoopState α N) :
    ((loopBody ext P I_channels)^[n] st).count = st.count + n := by
  induction n with
  | zero => simp
  | succ n ih =>
    rw [Function.iterate_succ_apply', ← Nat.add_assoc, ← ih]
    rfl

lemma iterate_S_mats (n : Nat) (st : LoopState α N) :
    ((loopBody ext P I_channels)^[n] st).S_mats =
      st.S_mats ++ (List.range n).map fun k =>
        ((loopBody ext P I_channels)^[k + 1] st).S_channels.map (convertScaleAbs ext) := by
  induction n with
  | zero => simp
  | succ n ih =>
    rw [List.range_succ, List.map_append, ← List.append_assoc, ← ih]
    simp only [List.map_cons, List.map_nil, Function.iterate_succ_apply']
    rfl

lemma iterate_out (n : Nat) (st : LoopState α N) :
    ((loopBody ext P I_channels)^[n] st).out =
      st.out ++ (List.range n).map fun k => (st.count + k, st.beta * P.kappa ^ (k + 1)) := by
  induction n with
  | zero => simp
  | succ n ih =>
    rw [List.range_succ, List.map_append, ← List.append_assoc, ← ih,
      Function.iterate_succ_apply']
    simp only [List.map_cons, List.map_nil]
    rw [← iterate_count ext P I_channels n st, pow_succ, ← mul_assoc,
      ← iterate_beta ext P I_channels n st]
    rfl

/-- The loop returns with enough fuel, after a number `n` of passes through its body
characterised by the loop test and the `break`. -/
lemma mainLoop_spec (fuel : Nat) : ∀ st : LoopState α N, 1 ≤ fuel →
    P.iter_max < st.count + fuel →
    ∃ n, mainLoop ext P I_channels fuel st = some ((loopBody ext P I_channels)^[n] st) ∧
      (∀ k, k < n → st.beta * P.kappa ^ k < P.beta_max) ∧
      (P.beta_max ≤ st.beta * P.kappa ^ n ∨ (1 ≤ n ∧ P.iter_max ≤ st.count + n)) ∧
      (∀ k, 1 ≤ k → k < n → st.count + k < P.iter_max) := by
  induction fuel with
  | zero => intro st h; omega
  | succ f ih =>
    intro st _ hfuel
    by_cases hb : st.beta < P.beta_max
    · by_cases hc : (loopBody ext P I_channels st).count ≥ P.iter_max
      · refine ⟨1, ?_, ?_, Or.inr ⟨le_refl 1, hc⟩, ?_⟩
        · simp only [mainLoop, hb, if_true, hc, Function.iterate_one]
        · intro k hk
          have : k = 0 := by omega
          subst this
          simpa using hb
        · intro k h1 h2; omega
      · have hcnt : (loopBody ext P I_channels st).count = st.count + 1 := rfl
        have hbeta : (loopBody ext P I_channels st).beta = st.beta * P.kappa := rfl
        obtain ⟨n, hn, hlt, hstop, hcap⟩ := ih (loopBody ext P I_channels st)
          (by omega) (by omega)
        refine ⟨n + 1, ?_, ?_, ?_, ?_⟩
        · simp only [mainLoop, hb, if_true, hc, if_false, Function.iterate_succ_apply]
          exact hn
        · intro k hk
          rcases Nat.eq_zero_or_pos k with h0 | h0
          · subst h0; simpa using hb
          · obtain ⟨k', rfl⟩ : ∃ k', k = k' + 1 := ⟨k - 1, by omega⟩
            have := hlt k' (by omega)
            rwa [hbeta, mul_assoc, ← pow_succ'] at this
        · rcases hstop with h | ⟨h1, h2⟩
          · left; rwa [hbeta, mul_assoc, ← pow_succ'] at h
          · right; exact ⟨by omega, by omega⟩
        · intro k h1 h2
          rcases Nat.lt_or_ge k 2 with hk | hk
          · have : k = 1 := by omega
            subst this; omega
          · have := hcap (k - 1) (by omega) (by omega)
            omega
    · refine ⟨0, ?_, ?_, Or.inl ?_, ?_⟩
      · simp only [mainLoop, hb, if_false, Function.iterate_zero, id]
      · intro k hk; omega
      · simpa using not_lt.1 hb
      · intro k h1 h2; omega
end

lemma runLoop_spec (ext : External α) (P : Params α) (rows cols : Nat)
    (I_channels : List (Mat α)) (H V : Nat → Nat → α) :
    ∃ n, runLoop ext P rows cols I_channels H V =
        some ((loopBody ext P I_channels)^[n] (initialState P rows cols I_channels H V)) ∧
      (∀ k, k < n → P.beta0 * P.kappa ^ k < P.beta_max) ∧
      (P.beta_max ≤ P.beta0 * P.kappa ^ n ∨ (1 ≤ n ∧ P.iter_max ≤ n)) ∧
      (∀ k, 1 ≤ k → k < n → k < P.iter_max) := by
  obtain ⟨n, h1, h2, h3, h4⟩ := mainLoop_spec ext P I_channels (P.iter_max + 1)
    (initialState P rows cols I_channels H V) (by omega)
    (by simp only [initialState]; omega)
  refine ⟨n, h1, h2, ?_, ?_⟩
  · simpa [initialState] using h3
  · simpa [initialState] using h4

/-- The number of passes through the loop body is the least `k` that fails the loop
test, capped at `iter_max`. -/
lemma runLoop_iterations (ext : External α) (P : Params α) (rows cols : Nat)
    (I_channels : List (Mat α)) (H V : Nat → Nat → α) (hit : 1 ≤ P.iter_max) (kstar : Nat)
    (hk : IsLeast {k | P.beta_max ≤ P.beta0 * P.kappa ^ k} kstar) :
    runLoop ext P rows cols I_channels H V =
      some ((loopBody ext P I_channels)^[min kstar P.iter_max]
        (initialState P rows cols I_channels H V)) := by
  obtain ⟨n, h1, h2, h3, h4⟩ := runLoop_spec ext P rows cols I_channels H V
  have hle : n ≤ kstar := by
    by_contra hlt
    exact absurd (h2 kstar (by omega)) (not_lt.2 hk.1)
  have hcap : n ≤ P.iter_max := by
    rcases Nat.lt_or_ge n 2 with h | h
    · omega
    · have := h4 (n - 1) (by omega) (by omega)
      omega
  have hn : n = min kstar P.iter_max := by
    rcases h3 with h | ⟨_, h⟩
    · have : kstar ≤ n := hk.2 h
      omega
    · omega
  rw [h1, hn]

lemma least_iteration_unique (beta_max b kappa : ℚ) (n kstar : Nat) (hk : 1 ≤ kappa)
    (hb : 0 ≤ b)
    (hstar : IsLeast {k | beta_max ≤ b * kappa ^ k} kstar)
    (hlt : n = 0 ∨ b * kappa ^ (n - 1) < beta_max) (hge : beta_max ≤ b * kappa ^ n) :
    kstar = n := by
  have h1 : kstar ≤ n := hstar.2 hge
  rcases hlt with h0 | hlt
  · omega
  · by_contra hne
    have h2 : kstar ≤ n - 1 := by omega
    have h3 : b * kappa ^ kstar ≤ b * kappa ^ (n - 1) :=
      mul_le_mul_of_nonneg_left (pow_le_pow_right₀ hk h2) hb
    exact absurd (lt_of_le_of_lt (le_trans hstar.1 h3) hlt) (lt_irrefl _)

/-- C10. Output cardinality and order: for every input and parameter set,
`minimizeL0Gradient` returns, and the sequence it returns has exactly one snapshot per
completed outer iteration, `n` of them after `n` passes through the loop body; after any
number `m` of passes the sequence consists of the first `m` snapshots (each one is
appended and none is replaced), so the `k`-th element (from 0) is the merged quantized
estimate produced by pass `k + 1`; and the length is zero iff `beta0 >= beta_max`, so the
result is never empty when `beta0 < beta_max`. -/
theorem minimizeL0Gradient_output_sequence (ext : External α) (P : Params α)
    (rows cols : Nat) (src_channels : List (Mat Nat)) (H V : Nat → Nat → α) :
    ∃ n S_mats,
      minimizeL0Gradient ext P rows cols src_channels H V = some S_mats ∧
      runLoop ext P rows cols (normalize src_channels) H V =
        some ((loopBody ext P (normalize src_channels))^[n]
          (initialState P rows cols (normalize src_channels) H V)) ∧
      S_mats.length = n ∧
      (∀ m, ((loopBody ext P (normalize src_channels))^[m]
          (initialState P rows cols (normalize src_channels) H V)).S_mats =
        (List.range m).map fun k =>
          ((loopBody ext P (normalize src_channels))^[k + 1]
            (initialState P rows cols (normalize src_channels) H V)).S_channels.map
              (convertScaleAbs ext)) ∧
      (∀ k, k < n → S_mats[k]? =
        some (((loopBody ext P (normalize src_channels))^[k + 1]
          (initialState P rows cols (normalize src_channels) H V)).S_channels.map
            (convertScaleAbs ext))) ∧
      (S_mats.length = 0 ↔ P.beta_max ≤ P.beta0) := by
  obtain ⟨n, h1, h2, h3, _⟩ := runLoop_spec ext P rows cols (normalize src_channels) H V
  have hm : ∀ m, ((loopBody ext P (normalize src_channels))^[m]
          (initialState P rows cols (normalize src_channels) H V)).S_mats =
        (List.range m).map fun k =>
          ((loopBody ext P (normalize src_channels))^[k + 1]
            (initialState P rows cols (normalize src_channels) H V)).S_channels.map
              (convertScaleAbs ext) := by
    intro m
    rw [iterate_S_mats]
    simp [initialState]
  refine ⟨n, ((loopBody ext P (normalize src_channels))^[n]
    (initialState P rows cols (normalize src_channels) H V)).S_mats,
    by rw [minimizeL0Gradient, h1]; rfl, h1, ?_, hm, ?_, ?_⟩
  · rw [hm]; simp
  · intro k hk
    rw [hm]
    simp [hk]
  · rw [hm]
    simp only [List.length_map, List.length_range]
    constructor
    · intro hn
      subst hn
      rcases h3 with h | ⟨h, _⟩
      · simpa using h
      · omega
    · intro hb
      by_contra hne
      have := h2 0 (by omega)
      simp only [pow_zero, mul_one] at this
      exact absurd this (not_lt.2 hb)

end LoopLemmas

/-! ## Flat input -/

section FlatLemmas

open Matrix

variable {α : Type} [LinearOrderedField α]

lemma optimize_fst (ext : External α) (P : Params α) {N : Nat} (S I : Mat α) (w : Work α N)
    (beta : α) :
    (optimize ext P S I w beta).1 =
      vec2CvMat (ofFin (if P.exact then
          ext.llt (systemMatrix w.g beta)
            (rightHandSide w.g (cvMat2Vec I w.g.I_vec)
              (cvMat2Vec (optimize ext P S I w beta).2.H w.g.H_vec)
              (cvMat2Vec (optimize ext P S I w beta).2.V w.g.V_vec) beta)
        else
          ext.cg (systemMatrix w.g beta)
            (rightHandSide w.g (cvMat2Vec I w.g.I_vec)
              (cvMat2Vec (optimize ext P S I w beta).2.H w.g.H_vec)
              (cvMat2Vec (optimize ext P S I w beta).2.V w.g.V_vec) beta)))
        S S.rows S.cols := rfl

lemma optimize_dims (ext : External α) (P : Params α) {N : Nat} (S I : Mat α) (w : Work α N)
    (beta : α) :
    (optimize ext P S I w beta).1.rows = S.rows ∧ (optimize ext P S I w beta).1.cols = S.cols := by
  rw [optimize_fst, vec2CvMat_eq]
  exact ⟨rfl, rfl⟩

lemma optimize_inv (ext : External α) (P : Params α) (rows cols : Nat) (S I : Mat α)
    (w : Work α (rows * cols)) (beta : α) (hw : WorkInv rows cols w)
    (hr : S.rows = rows) (hc : S.cols = cols) :
    WorkInv rows cols (optimize ext P S I w beta).2 := by
  obtain ⟨hg, hd, h1, h2, h3, h4⟩ := hw
  have hH : (optimize ext P S I w beta).2.H.rows = w.H.rows ∧
      (optimize ext P S I w beta).2.H.cols = w.H.cols ∧
      (optimize ext P S I w beta).2.V.rows = w.V.rows ∧
      (optimize ext P S I w beta).2.V.cols = w.V.cols := by
    rw [optimize_H, optimize_V, shrink_eq]
    exact ⟨rfl, rfl, rfl, rfl⟩
  refine ⟨fun j i hji => ?_, ?_, h1, h2, h3, h4⟩
  swap
  · rw [hH.1, hH.2.1, hH.2.2.1, hH.2.2.2]; exact hd
  have hx : (optimize ext P S I w beta).2.grad_x = (computeGradient S w.grad_x w.grad_y).1 := rfl
  have hy : (optimize ext P S I w beta).2.grad_y = (computeGradient S w.grad_x w.grad_y).2 := rfl
  rw [hx, hy, computeGradient_eq]
  simp only [hr, hc, hji, if_false]
  exact hg j i hji

/-- On a field that is constant over the grid, the shrinkage step leaves `H` and `V`
zero over the grid. -/
lemma optimize_HV_flat (ext : External α) (P : Params α) (rows cols : Nat) (S I : Mat α)
    (w : Work α (rows * cols)) (beta c : α) (hw : WorkInv rows cols w)
    (hr : S.rows = rows) (hc : S.cols = cols)
    (hS : ∀ i j, i < rows → j < cols → S.data i j = c) (j i : Nat) (hj : j < rows)
    (hi : i < cols) :
    (optimize ext P S I w beta).2.H.data j i = 0 ∧
      (optimize ext P S I w beta).2.V.data j i = 0 := by
  rw [optimize_H, optimize_V, shrink_eq, computeGradient_eq]
  simp only [hr, hc, hj, hi, and_self, if_true]
  by_cases hint : j < rows - 1 ∧ i < cols - 1
  · have e1 : S.data j i = c := hS j i hj hi
    have e2 : S.data j (i + 1) = c := hS j (i + 1) hj (by omega)
    have e3 : S.data (j + 1) i = c := hS (j + 1) i (by omega) hi
    simp only [hint, and_self, if_true, e1, e2, e3, sub_self, ite_self]
  · obtain ⟨gx0, gy0⟩ := hw.1 j i hint
    simp only [hint, if_false, gx0, gy0, ite_self, and_self]

/-- After `optimize` on a field that is constant over the grid, the new estimate is
what the selected solver returns for the system `(beta * A0 + E) s = I`. -/
lemma optimize_flat_data (ext : External α) (P : Params α) (rows cols : Nat) (S I : Mat α)
    (w : Work α (rows * cols)) (beta c : α) (hw : WorkInv rows cols w)
    (hr : S.rows = rows) (hc : S.cols = cols) (hIr : I.rows = rows) (hIc : I.cols = cols)
    (hS : ∀ i j, i < rows → j < cols → S.data i j = c)
    (i j : Nat) (hi : i < rows) (hj : j < cols) :
    (optimize ext P S I w beta).1.data i j =
      (if P.exact then ext.llt (systemMatrix (init rows cols) beta)
          (fun p => I.data (p.val / cols) (p.val % cols))
        else ext.cg (systemMatrix (init rows cols) beta)
          (fun p => I.data (p.val / cols) (p.val % cols)))
        ⟨i * cols + j, index_lt _ _ _ _ hi hj⟩ := by
  have hw' := optimize_inv ext P rows cols S I w beta hw hr hc
  have hHV := optimize_HV_flat ext P rows cols S I w beta c hw hr hc hS
  have hH0 := toFin_cvMat2Vec_zero (optimize ext P S I w beta).2.H w.g.H_vec rows cols
    hw'.2.1.1 hw'.2.1.2.1 (fun j i hj hi => (hHV j i hj hi).1)
  have hV0 := toFin_cvMat2Vec_zero (optimize ext P S I w beta).2.V w.g.V_vec rows cols
    hw'.2.1.2.2.1 hw'.2.1.2.2.2 (fun j i hj hi => (hHV j i hj hi).2)
  have hA : systemMatrix w.g beta = systemMatrix (init rows cols) beta := by
    unfold systemMatrix; rw [hw.2.2.1, hw.2.2.2.1]
  have hrhs : rightHandSide w.g (cvMat2Vec I w.g.I_vec)
      (cvMat2Vec (optimize ext P S I w beta).2.H w.g.H_vec)
      (cvMat2Vec (optimize ext P S I w beta).2.V w.g.V_vec) beta =
      fun p => I.data (p.val / cols) (p.val % cols) := by
    unfold rightHandSide
    rw [hH0, hV0, Matrix.mulVec_zero, Matrix.mulVec_zero, add_zero, smul_zero, add_zero,
      toFin_cvMat2Vec I _ rows cols hIr hIc]
  rw [optimize_fst, vec2CvMat_eq, hrhs, hA]
  simp only [hr, hc, hi, hj, and_self, if_true, ofFin, index_lt _ _ _ _ hi hj, dif_pos]

/-- After `optimize` on a field that is constant over the grid, with an exact solve,
the new estimate is a solution of `(beta * A0 + E) s = I`. -/
lemma optimize_flat_solves (ext : External α) (P : Params α) (rows cols : Nat) (S I : Mat α)
    (w : Work α (rows * cols)) (beta c : α) (hw : WorkInv rows cols w)
    (hext : ext.Exact rows cols) (hb : 0 ≤ beta)
    (hr : S.rows = rows) (hc : S.cols = cols) (hIr : I.rows = rows) (hIc : I.cols = cols)
    (hS : ∀ i j, i < rows → j < cols → S.data i j = c) :
    ∃ s : Fin (rows * cols) → α,
      systemMatrix (init rows cols) beta *ᵥ s =
          (fun p => I.data (p.val / cols) (p.val % cols)) ∧
        ∀ i j (hi : i < rows) (hj : j < cols),
          (optimize ext P S I w beta).1.data i j = s ⟨i * cols + j, index_lt _ _ _ _ hi hj⟩ := by
  have hsol := hext beta (fun p => I.data (p.val / cols) (p.val % cols)) hb
  refine ⟨if P.exact then ext.llt (systemMatrix (init rows cols) beta)
        (fun p => I.data (p.val / cols) (p.val % cols))
      else ext.cg (systemMatrix (init rows cols) beta)
        (fun p => I.data (p.val / cols) (p.val % cols)), ?_,
    optimize_flat_data ext P rows cols S I w beta c hw hr hc hIr hIc hS⟩
  split_ifs
  · exact hsol.1
  · exact hsol.2

/-- The row of `GX` for the last pixel sums to 1: applied to a constant field, `GX`
returns the constant itself there. -/
lemma GX_mulVec_const_last (rows cols : Nat) (c : α) (hN : 0 < rows * cols) :
    (GX rows cols *ᵥ fun _ => c) ⟨rows * cols - 1, by omega⟩ = c := by
  simp only [Matrix.mulVec, Matrix.dotProduct]
  rw [Finset.sum_eq_single (⟨rows * cols - 1, by omega⟩ : Fin (rows * cols))]
  · rw [GX_apply]; simp
  · intro q _ hq
    rw [GX_apply, if_neg hq, if_neg, zero_mul]
    have := q.isLt
    simp only
    omega
  · intro h; exact absurd (Finset.mem_univ _) h

/-- A non-zero constant field is not a solution of `(beta * A0 + E) s = c` for
`beta > 0`: the last row of `GX` does not annihilate constants. -/
lemma flat_not_fixed (rows cols : Nat) (beta c : α) (hN : 0 < rows * cols) (hb : 0 < beta)
    (hc : c ≠ 0) :
    systemMatrix (init rows cols) beta *ᵥ (fun _ => c) ≠ fun _ => c := by
  intro h
  have hq := systemMatrix_quadratic rows cols beta (fun _ : Fin (rows * cols) => c)
  rw [h] at hq
  have h0 : (fun _ : Fin (rows * cols) => c) ⬝ᵥ
      (init rows cols : Globals α (rows * cols)).A0 *ᵥ (fun _ => c) = 0 := by
    have : beta * ((fun _ : Fin (rows * cols) => c) ⬝ᵥ
      (init rows cols : Globals α (rows * cols)).A0 *ᵥ (fun _ => c)) = 0 := by linarith
    rcases mul_eq_zero.1 this with hb0 | h0
    · exact absurd hb0 hb.ne'
    · exact h0
  rw [A0_quadratic] at h0
  have hx : (GX rows cols *ᵥ fun _ => c) ⬝ᵥ (GX rows cols *ᵥ fun _ : Fin (rows * cols) => c)
      = 0 := by
    have h1 := dotProduct_self_nonneg (GX rows cols *ᵥ fun _ : Fin (rows * cols) => c)
    have h2 := dotProduct_self_nonneg (GY rows cols *ᵥ fun _ : Fin (rows * cols) => c)
    linarith
  have hzero : (GX rows cols *ᵥ fun _ : Fin (rows * cols) => c) = 0 := by
    by_contra hne
    exact absurd hx (dotProduct_self_pos _ hne).ne'
  have := GX_mulVec_const_last rows cols c hN
  rw [hzero] at this
  exact hc this.symm

/-- The `n`-th channel leaves the channel loop as the result of one call of `optimize`
on it, with buffers that satisfy the invariant. -/
lemma optimizeChannels_spec (ext : External α) (P : Params α) (rows cols : Nat) (beta : α) :
    ∀ (Ss Is : List (Mat α)) (w : Work α (rows * cols)), WorkInv rows cols w →
      (∀ S ∈ Ss, S.rows = rows ∧ S.cols = cols) →
      WorkInv rows cols (optimizeChannels ext P beta Ss Is w).2 ∧
      (optimizeChannels ext P beta Ss Is w).1.length = Ss.length ∧
      (∀ S ∈ (optimizeChannels ext P beta Ss Is w).1, S.rows = rows ∧ S.cols = cols) ∧
      ∀ (n : Nat) (S I : Mat α), Ss[n]? = some S → Is[n]? = some I →
        ∃ w', WorkInv rows cols w' ∧
          (optimizeChannels ext P beta Ss Is w).1[n]? = some (optimize ext P S I w' beta).1 := by
  intro Ss
  induction Ss with
  | nil =>
    intro Is w hw _
    refine ⟨by simpa [optimizeChannels] using hw, by simp [optimizeChannels],
      by simp [optimizeChannels], ?_⟩
    intro n S I h; simp at h
  | cons S0 Ss ih =>
    intro Is w hw hd
    cases Is with
    | nil =>
      refine ⟨by simpa [optimizeChannels] using hw, by simp [optimizeChannels],
        by simpa [optimizeChannels] using hd, ?_⟩
      intro n S I _ h; simp at h
    | cons I0 Is =>
      have hd0 := hd S0 (List.mem_cons_self _ _)
      have hw1 := optimize_inv ext P rows cols S0 I0 w beta hw hd0.1 hd0.2
      obtain ⟨a1, a2, a3, a4⟩ := ih Is (optimize ext P S0 I0 w beta).2 hw1
        (fun S hS => hd S (List.mem_cons_of_mem _ hS))
      have hdim := optimize_dims ext P S0 I0 w beta
      refine ⟨a1, by simp [optimizeChannels, a2], ?_, ?_⟩
      · intro S hS
        simp only [optimizeChannels, List.mem_cons] at hS
        rcases hS with rfl | hS
        · exact ⟨hdim.1.trans hd0.1, hdim.2.trans hd0.2⟩
        · exact a3 S hS
      · intro n S I hS hI
        cases n with
        | zero =>
          simp only [List.getElem?_cons_zero, Option.some.injEq] at hS hI
          subst hS; subst hI
          exact ⟨w, hw, by simp [optimizeChannels]⟩
        | succ n =>
          simp only [List.getElem?_cons_succ] at hS hI
          obtain ⟨w', hw', h⟩ := a4 n S I hS hI
          exact ⟨w', hw', by simpa [optimizeChannels] using h⟩

lemma initialState_inv (P : Params α) (rows cols : Nat) (I_channels : List (Mat α))
    (H V : Nat → Nat → α) :
    WorkInv rows cols (initialState P rows cols I_channels H V).w :=
  ⟨fun _ _ _ => ⟨rfl, rfl⟩, ⟨rfl, rfl, rfl, rfl⟩, rfl, rfl, rfl, rfl⟩

lemma iterate_inv (ext : External α) (P : Params α) (rows cols : Nat)
    (I_channels : List (Mat α)) (H V : Nat → Nat → α)
    (hdims : ∀ J ∈ I_channels, J.rows = rows ∧ J.cols = cols) (k : Nat) :
    WorkInv rows cols
        ((loopBody ext P I_channels)^[k] (initialState P rows cols I_channels H V)).w ∧
      ∀ S ∈ ((loopBody ext P I_channels)^[k]
        (initialState P rows cols I_channels H V)).S_channels, S.rows = rows ∧ S.cols = cols := by
  induction k with
  | zero => exact ⟨initialState_inv P rows cols I_channels H V, hdims⟩
  | succ k ih =>
    rw [Function.iterate_succ_apply']
    have h := optimizeChannels_spec ext P rows cols
      ((loopBody ext P I_channels)^[k] (initialState P rows cols I_channels H V)).beta
      ((loopBody ext P I_channels)^[k] (initialState P rows cols I_channels H V)).S_channels
      I_channels _ ih.1 ih.2
    exact ⟨h.1, h.2.2.1⟩

lemma iterate_beta_nonneg (ext : External α) (P : Params α) (rows cols : Nat)
    (I_channels : List (Mat α)) (H V : Nat → Nat → α) (hl : 0 < P.lambda) (hk : 1 < P.kappa)
    (hb0 : P.beta0 = 2 * P.lambda) (k : Nat) :
    0 < ((loopBody ext P I_channels)^[k] (initialState P rows cols I_channels H V)).beta := by
  rw [iterate_beta]
  have h1 : (0 : α) < P.beta0 := by rw [hb0]; positivity
  have h2 : (0 : α) < P.kappa := lt_trans zero_lt_one hk
  exact mul_pos h1 (pow_pos h2 k)

/-- The zero channel stays zero through every pass of the loop body. -/
lemma iterate_zero_channel (ext : External α) (P : Params α) (rows cols : Nat)
    (I_channels : List (Mat α)) (H V : Nat → Nat → α) (n : Nat) (I : Mat α)
    (hl : 0 < P.lambda) (hk : 1 < P.kappa) (hb0 : P.beta0 = 2 * P.lambda)
    (hext : ext.Exact rows cols)
    (hdims : ∀ J ∈ I_channels, J.rows = rows ∧ J.cols = cols)
    (hn : I_channels[n]? = some I)
    (hflat : ∀ i j, i < rows → j < cols → I.data i j = 0) (k : Nat) :
    ∃ S, ((loopBody ext P I_channels)^[k]
        (initialState P rows cols I_channels H V)).S_channels[n]? = some S ∧
      ∀ i j, i < rows → j < cols → S.data i j = I.data i j := by
  have hI : I ∈ I_channels := List.getElem?_mem hn
  induction k with
  | zero => exact ⟨I, hn, fun _ _ _ _ => rfl⟩
  | succ k ih =>
    obtain ⟨S, hS, hS0⟩ := ih
    have hinv := iterate_inv ext P rows cols I_channels H V hdims k
    have hβ := iterate_beta_nonneg ext P rows cols I_channels H V hl hk hb0 k
    obtain ⟨_, _, _, hch⟩ := optimizeChannels_spec ext P rows cols
      ((loopBody ext P I_channels)^[k] (initialState P rows cols I_channels H V)).beta
      ((loopBody ext P I_channels)^[k] (initialState P rows cols I_channels H V)).S_channels
      I_channels _ hinv.1 hinv.2
    obtain ⟨w', hw', hres⟩ := hch n S I hS hn
    have hSd := hinv.2 S (List.getElem?_mem hS)
    have hS0' : ∀ i j, i < rows → j < cols → S.data i j = 0 := fun i j hi hj => by
      rw [hS0 i j hi hj, hflat i j hi hj]
    obtain ⟨s, hs, hdata⟩ := optimize_flat_solves ext P rows cols S I w' _ 0 hw' hext hβ.le
      hSd.1 hSd.2 (hdims I hI).1 (hdims I hI).2 hS0'
    have hs0 : s = 0 := by
      apply systemMatrix_injective rows cols _ hβ.le
      rw [hs, Matrix.mulVec_zero]
      funext p
      have hcols : 0 < cols := Nat.pos_of_ne_zero fun h => by
        have := p.isLt; simp [h] at this
      have hp : p.val < cols * rows := lt_of_lt_of_eq p.isLt (Nat.mul_comm rows cols)
      exact hflat _ _ (Nat.div_lt_of_lt_mul hp) (Nat.mod_lt _ hcols)
    refine ⟨_, by rw [Function.iterate_succ_apply']; exact hres, fun i j hi hj => ?_⟩
    rw [hdata i j hi hj, hs0, hflat i j hi hj]
    rfl

/-- A non-zero constant channel is changed by the first pass of the loop body. -/
lemma first_pass_moves_flat_channel (ext : External α) (P : Params α) (rows cols : Nat)
    (I_channels : List (Mat α)) (H V : Nat → Nat → α) (n : Nat) (I : Mat α) (c : α)
    (hrows : 0 < rows) (hcols : 0 < cols)
    (hl : 0 < P.lambda) (hk : 1 < P.kappa) (hb0 : P.beta0 = 2 * P.lambda)
    (hext : ext.Exact rows cols)
    (hdims : ∀ J ∈ I_channels, J.rows = rows ∧ J.cols = cols)
    (hn : I_channels[n]? = some I)
    (hflat : ∀ i j, i < rows → j < cols → I.data i j = c) (hc : c ≠ 0) :
    ∃ S, ((loopBody ext P I_channels)^[1]
        (initialState P rows cols I_channels H V)).S_channels[n]? = some S ∧
      ∃ i j, i < rows ∧ j < cols ∧ S.data i j ≠ I.data i j := by
  have hI : I ∈ I_channels := List.getElem?_mem hn
  have hβ := iterate_beta_nonneg ext P rows cols I_channels H V hl hk hb0 0
  obtain ⟨_, _, _, hch⟩ := optimizeChannels_spec ext P rows cols
    (initialState P rows cols I_channels H V).beta I_channels I_channels _
    (initialState_inv P rows cols I_channels H V) hdims
  obtain ⟨w', hw', hres⟩ := hch n I I hn hn
  obtain ⟨s, hs, hdata⟩ := optimize_flat_solves ext P rows cols I I w' _ c hw' hext hβ.le
    (hdims I hI).1 (hdims I hI).2 (hdims I hI).1 (hdims I hI).2 hflat
  refine ⟨_, hres, ?_⟩
  by_contra hall
  push_neg at hall
  have hpix : ∀ p : Fin (rows * cols), p.val / cols < rows ∧ p.val % cols < cols := fun p =>
    ⟨Nat.div_lt_of_lt_mul (lt_of_lt_of_eq p.isLt (Nat.mul_comm rows cols)),
      Nat.mod_lt _ hcols⟩
  have hsc : s = fun _ => c := by
    funext p
    have hd := hdata (p.val / cols) (p.val % cols) (hpix p).1 (hpix p).2
    have hp : (⟨p.val / cols * cols + p.val % cols,
        index_lt _ _ _ _ (hpix p).1 (hpix p).2⟩ : Fin (rows * cols)) = p :=
      Fin.ext (by simp only; rw [Nat.mul_comm]; exact Nat.div_add_mod _ _)
    rw [hp] at hd
    exact hd.symm.trans ((hall _ _ (hpix p).1 (hpix p).2).trans
      (hflat _ _ (hpix p).1 (hpix p).2))
  have hbc : (fun p : Fin (rows * cols) => I.data (p.val / cols) (p.val % cols)) =
      fun _ => c := by
    funext p; exact hflat _ _ (hpix p).1 (hpix p).2
  rw [hsc, hbc] at hs
  exact flat_not_fixed rows cols _ c (Nat.mul_pos hrows hcols) hβ hc hs

/-- Exact solvers exist for every image size: the solve by the inverse matrix. -/
lemma exists_exact_external :
    ∃ ext : External α, ∀ rows cols, ext.Exact rows cols := by
  classical
  refine ⟨{ llt := fun A b => A⁻¹ *ᵥ b, cg := fun A b => A⁻¹ *ᵥ b, saturate := fun _ => 0 },
    fun rows cols beta b hb => ?_⟩
  have hu : IsUnit (systemMatrix (init rows cols) beta : Matrix _ _ α).det :=
    (Matrix.isUnit_iff_isUnit_det _).1
      (Matrix.mulVec_injective_iff_isUnit.1 (systemMatrix_injective rows cols beta hb))
  have key : systemMatrix (init rows cols) beta *ᵥ
      ((systemMatrix (init rows cols) beta)⁻¹ *ᵥ b) = b := by
    rw [Matrix.mulVec_mulVec, Matrix.mul_nonsing_inv _ hu, Matrix.one_mulVec]
  exact ⟨key, key⟩

lemma fin_one_eq (p q : Fin (1 * 1)) : q = p :=
  Fin.ext (by have := p.isLt; have := q.isLt; omega)

lemma sum_fin_one {β : Type} [AddCommMonoid β] (f : Fin (1 * 1) → β) (p : Fin (1 * 1)) :
    (Finset.univ.sum f) = f p :=
  Finset.sum_eq_single p (fun q _ hq => absurd (fin_one_eq p q) hq)
    (fun h => absurd (Finset.mem_univ p) h)

/-- Entry of the `1 x 1` system matrix: `2 * beta + 1`. -/
lemma systemMatrix_one_by_one (beta : α) (p q : Fin (1 * 1)) :
    systemMatrix (init 1 1) beta p q = 2 * beta + 1 := by
  have hq : q = p := fin_one_eq p q
  subst hq
  rw [systemMatrix_eq, A0_eq]
  simp only [Matrix.add_apply, Matrix.smul_apply, Matrix.mul_apply, Matrix.transpose_apply,
    Matrix.one_apply, if_true, smul_eq_mul, sum_fin_one _ q, GX_apply, GY_apply]
  ring

lemma exampleExternal_exact : exampleExternal.Exact 1 1 := by
  intro beta b hb
  have key : systemMatrix (init 1 1) beta *ᵥ
      (fun p => b p / systemMatrix (init 1 1) beta p p) = b := by
    funext p
    simp only [Matrix.mulVec, Matrix.dotProduct]
    rw [sum_fin_one _ p, systemMatrix_one_by_one]
    have : (2 * beta + 1 : ℚ) ≠ 0 := by positivity
    field_simp
  exact ⟨key, key⟩

/-- C7. Idempotence on flat input fails in the code. On the `1 x 1` image of value 255
(normalized to `I = 1`) with `lambda = 1`, `kappa = 2`, `beta_max = 3` and the exact
solve, the only outer iteration (`beta = 2`) solves `(2 * 2 + 1) s = 1`: the estimate is
`1/5` and not the input value 1, and the returned snapshot holds 51 where the input
holds 255. On the `2 x 2` image of value 1 with the same parameters, whatever `H` and `V`
hold at the start, the estimate of the first outer iteration differs from the input at
some pixel for every solver that solves its systems. -/
theorem flat_input_not_preserved :
    exampleExternal.Exact 1 1 ∧
      (runLoop exampleExternal (Params.ofConfig 1 3 2 true 1000) 1 1 [flat 1 1 1]
          (fun _ _ => 0) (fun _ _ => 0)).map
        (fun st => st.S_channels.map fun S => S.data 0 0) = some [1 / 5] ∧
      (flat 1 1 (1 : ℚ)).data 0 0 = 1 ∧
      (minimizeL0Gradient exampleExternal (Params.ofConfig 1 3 2 true 1000) 1 1
          [⟨1, 1, fun _ _ => 255⟩] (fun _ _ => 0) (fun _ _ => 0)).map
        (fun S_mats => S_mats.map fun S => S.map fun c => c.data 0 0) = some [[51]] ∧
      ∀ (ext : External ℚ) (H V : Nat → Nat → ℚ), ext.Exact 2 2 →
        ∃ S, ((loopBody ext (Params.ofConfig 1 3 2 true 1000) [flat 2 2 1])^[1]
            (initialState (Params.ofConfig 1 3 2 true 1000) 2 2 [flat 2 2 1] H V)).S_channels[0]?
              = some S ∧
          ∃ i j, i < 2 ∧ j < 2 ∧ S.data i j ≠ (flat 2 2 (1 : ℚ)).data i j := by
  have hleast : IsLeast {k | (Params.ofConfig (1 : ℚ) 3 2 true 1000).beta_max ≤
      (Params.ofConfig (1 : ℚ) 3 2 true 1000).beta0 *
        (Params.ofConfig (1 : ℚ) 3 2 true 1000).kappa ^ k} 1 := by
    constructor
    · show (3 : ℚ) ≤ 2 * 1 * 2 ^ 1
      norm_num
    · intro k hk
      rcases Nat.eq_zero_or_pos k with h0 | h0
      · subst h0
        have : (3 : ℚ) ≤ 2 * 1 * 2 ^ 0 := hk
        norm_num at this
      · exact h0
  have hd := optimize_flat_data exampleExternal (Params.ofConfig 1 3 2 true 1000) 1 1
    (flat 1 1 1) (flat 1 1 1)
    (initialState (Params.ofConfig 1 3 2 true 1000) 1 1 [flat 1 1 1]
      (fun _ _ => 0) (fun _ _ => 0)).w (2 * 1) 1
    (initialState_inv _ 1 1 _ _ _) rfl rfl rfl rfl (fun _ _ _ _ => rfl) 0 0 Nat.one_pos
    Nat.one_pos
  have hval : (optimize exampleExternal (Params.ofConfig 1 3 2 true 1000) (flat 1 1 1)
      (flat 1 1 1) (initialState (Params.ofConfig 1 3 2 true 1000) 1 1 [flat 1 1 1]
      (fun _ _ => 0) (fun _ _ => 0)).w (2 * 1)).1.data 0 0 = 1 / 5 := by
    rw [hd]
    simp only [Params.ofConfig, if_true, exampleExternal, systemMatrix_one_by_one, flat]
    norm_num
  have hnorm : normalize [(⟨1, 1, fun _ _ => 255⟩ : Mat Nat)] = [flat 1 1 (1 : ℚ)] := by
    simp only [normalize, List.map_cons, List.map_nil, flat]
    norm_num
  refine ⟨exampleExternal_exact, ?_, rfl, ?_, fun ext H V hext => ?_⟩
  · rw [runLoop_iterations exampleExternal _ 1 1 [flat 1 1 1] _ _ (by decide) 1 hleast]
    simp only [Option.map_some', Option.some.injEq]
    exact congrArg (fun x => [x]) hval
  · rw [minimizeL0Gradient, hnorm,
      runLoop_iterations exampleExternal _ 1 1 [flat 1 1 1] _ _ (by decide) 1 hleast]
    simp only [Option.map_some', Option.some.injEq]
    have hq : (convertScaleAbs exampleExternal
        (optimize exampleExternal (Params.ofConfig 1 3 2 true 1000) (flat 1 1 1)
          (flat 1 1 1) (initialState (Params.ofConfig 1 3 2 true 1000) 1 1 [flat 1 1 1]
          (fun _ _ => 0) (fun _ _ => 0)).w (2 * 1)).1).data 0 0 = 51 := by
      show exampleExternal.saturate |_ * 255| = 51
      rw [hval]
      have h51 : |(1 / 5 : ℚ) * 255| = ((51 : ℤ) : ℚ) := by norm_num
      show min 255 (Int.toNat ⌊|(1 / 5 : ℚ) * 255|⌋) = 51
      rw [h51, Int.floor_intCast]
      rfl
    exact congrArg (fun x => [[x]]) hq
  · exact first_pass_moves_flat_channel ext (Params.ofConfig 1 3 2 true 1000) 2 2
      [flat 2 2 1] H V 0 (flat 2 2 1) 1 (by norm_num) (by norm_num)
      (by norm_num [Params.ofConfig]) (by norm_num [Params.ofConfig]) rfl hext
      (by simp [flat]) rfl (fun _ _ _ _ => rfl) one_ne_zero

end FlatLemmas

/-! ## Operators and stencil -/

section StencilLemmas

open Matrix
variable {α : Type} [LinearOrderedField α]

/-- Product of a forward-difference matrix with offset `d` and a vector. -/
lemma stencil_mulVec {N : Nat} (d : Nat) (hd : 0 < d) (M : Matrix (Fin N) (Fin N) α)
    (hM : ∀ p q : Fin N, M p q = if q = p then 1 else if q.val = p.val + d then -1 else 0)
    (x : Fin N → α) (p : Fin N) :
    (M *ᵥ x) p = x p - (if h : p.val + d < N then x ⟨p.val + d, h⟩ else 0) := by
  simp only [Matrix.mulVec, Matrix.dotProduct]
  have hsplit : ∀ q : Fin N, M p q * x q =
      (if q = p then x q else 0) + (if q.val = p.val + d then -x q else 0) := by
    intro q
    rw [hM]
    by_cases h1 : q = p
    · subst h1
      have h2 : ¬ q.val = q.val + d := by omega
      rw [if_pos rfl, if_pos rfl, if_neg h2, one_mul, add_zero]
    · by_cases h2 : q.val = p.val + d <;> simp [h1, h2]
  rw [Finset.sum_congr rfl (fun q _ => hsplit q), Finset.sum_add_distrib,
    Finset.sum_ite_eq' Finset.univ p, if_pos (Finset.mem_univ p), sub_eq_add_neg]
  congr 1
  by_cases h : p.val + d < N
  · rw [dif_pos h, Finset.sum_eq_single (⟨p.val + d, h⟩ : Fin N)]
    · simp
    · intro q _ hq
      have : ¬ q.val = p.val + d := fun hh => hq (Fin.ext hh)
      simp [this]
    · intro hh; exact absurd (Finset.mem_univ _) hh
  · rw [dif_neg h, neg_zero]
    apply Finset.sum_eq_zero
    intro q _
    have : ¬ q.val = p.val + d := fun hh => h (hh ▸ q.isLt)
    simp [this]

lemma GX_mulVec (rows cols : Nat) (x : Fin (rows * cols) → α) (p : Fin (rows * cols)) :
    (GX rows cols *ᵥ x) p =
      x p - (if h : p.val + 1 < rows * cols then x ⟨p.val + 1, h⟩ else 0) :=
  stencil_mulVec 1 Nat.one_pos _ (GX_apply rows cols) x p

lemma GY_mulVec (rows cols : Nat) (x : Fin (rows * cols) → α) (p : Fin (rows * cols)) :
    (GY rows cols *ᵥ x) p =
      x p - (if h : p.val + cols < rows * cols then x ⟨p.val + cols, h⟩ else 0) := by
  rcases Nat.eq_zero_or_pos cols with hc | hc
  · exact absurd p.isLt (by simp [hc])
  · exact stencil_mulVec cols hc _ (GY_apply rows cols) x p

/-- C19. Operator/stencil agreement: for every `rows x cols` field `S` with flattening
`s = cvMat2Vec(S)` (whatever the vector held before), and every pixel `(j,i)` with
`j < rows-1` and `i < cols-1`, the index `j*cols+i` is in range and the gradient
computed by `computeGradient` equals the matrix operator applied to `s`:
`grad_x(j,i) = (GX·s)[j*cols+i]` and `grad_y(j,i) = (GY·s)[j*cols+i]`. -/
theorem computeGradient_agrees_with_operators (S grad_x grad_y : Mat α) (vec : Nat → α)
    (j i : Nat) (hj : j < S.rows - 1) (hi : i < S.cols - 1) :
    ∃ h : j * S.cols + i < S.rows * S.cols,
      (computeGradient S grad_x grad_y).1.data j i =
          (GX S.rows S.cols *ᵥ toFin (S.rows * S.cols) (cvMat2Vec S vec)) ⟨j * S.cols + i, h⟩ ∧
        (computeGradient S grad_x grad_y).2.data j i =
          (GY S.rows S.cols *ᵥ toFin (S.rows * S.cols) (cvMat2Vec S vec)) ⟨j * S.cols + i, h⟩ := by
  have hj' : j < S.rows := by omega
  have hi' : i < S.cols := by omega
  have h := index_lt S.rows S.cols j i hj' hi'
  have hx : j * S.cols + i + 1 < S.rows * S.cols := by
    have := index_lt S.rows S.cols j (i + 1) hj' (by omega)
    omega
  have hy : j * S.cols + i + S.cols < S.rows * S.cols := by
    have := index_lt S.rows S.cols (j + 1) i (by omega) hi'
    have e : (j + 1) * S.cols + i = j * S.cols + i + S.cols := by ring
    omega
  have e0 : cvMat2Vec S vec (j * S.cols + i) = S.data j i := by
    rw [cvMat2Vec_apply, if_pos h, index_div _ _ _ hi', index_mod _ _ _ hi']
  have e1 : cvMat2Vec S vec (j * S.cols + i + 1) = S.data j (i + 1) := by
    have hi1 : i + 1 < S.cols := by omega
    rw [cvMat2Vec_apply, if_pos hx, Nat.add_assoc, index_div _ _ _ hi1, index_mod _ _ _ hi1]
  have e2 : cvMat2Vec S vec (j * S.cols + i + S.cols) = S.data (j + 1) i := by
    have e : j * S.cols + i + S.cols = (j + 1) * S.cols + i := by ring
    rw [cvMat2Vec_apply, if_pos hy, e, index_div _ _ _ hi', index_mod _ _ _ hi']
  refine ⟨h, ?_, ?_⟩
  · rw [GX_mulVec, computeGradient_eq]
    simp only [hj, hi, and_self, if_true, toFin, hx, dif_pos, e0, e1]
  · rw [GY_mulVec, computeGradient_eq]
    simp only [hj, hi, and_self, if_true, toFin, hy, dif_pos, e0, e2]

/-- Instance of C19 at pixel `(0,0)` of the `2 x 2` field with a single 1 at `(0,0)`. -/
theorem computeGradient_agrees_with_operators_witness :
    (0 < exampleField.rows - 1 ∧ 0 < exampleField.cols - 1) ∧
      ∃ h : 0 * exampleField.cols + 0 < exampleField.rows * exampleField.cols,
        (computeGradient exampleField (flat 2 2 0) (flat 2 2 0)).1.data 0 0 =
          (GX exampleField.rows exampleField.cols *ᵥ
            toFin (exampleField.rows * exampleField.cols)
              (cvMat2Vec exampleField fun _ => 0)) ⟨0 * exampleField.cols + 0, h⟩ ∧
        (computeGradient exampleField (flat 2 2 0) (flat 2 2 0)).2.data 0 0 =
          (GY exampleField.rows exampleField.cols *ᵥ
            toFin (exampleField.rows * exampleField.cols)
              (cvMat2Vec exampleField fun _ => 0)) ⟨0 * exampleField.cols + 0, h⟩ :=
  ⟨⟨by decide, by decide⟩,
    computeGradient_agrees_with_operators exampleField (flat 2 2 0) (flat 2 2 0) (fun _ => 0)
      0 0 (by decide) (by decide)⟩

end StencilLemmas

/-! ## Shrinkage on flat fields and at the boundary -/

section BoundaryShrinkLemmas

open Matrix
variable {α : Type} [LinearOrderedField α]

/-- Right-hand side assembled by `computeS` when `H` and `V` vanish over the grid. -/
lemma rightHandSide_of_zero (rows cols : Nat) (g : Globals α (rows * cols)) (I H V : Mat α)
    (beta : α) (hH : H.rows = rows ∧ H.cols = cols) (hV : V.rows = rows ∧ V.cols = cols)
    (h0 : ∀ j i, j < rows → i < cols → H.data j i = 0 ∧ V.data j i = 0) :
    rightHandSide g (cvMat2Vec I g.I_vec) (cvMat2Vec H g.H_vec) (cvMat2Vec V g.V_vec) beta =
      toFin (rows * cols) (cvMat2Vec I g.I_vec) := by
  unfold rightHandSide
  rw [toFin_cvMat2Vec_zero H _ rows cols hH.1 hH.2 (fun j i hj hi => (h0 j i hj hi).1),
    toFin_cvMat2Vec_zero V _ rows cols hV.1 hV.2 (fun j i hj hi => (h0 j i hj hi).2),
    Matrix.mulVec_zero, Matrix.mulVec_zero, add_zero, smul_zero, add_zero]

/-- C17. Shrinkage on a flat estimate: for every constant `c`, every `lambda` and every
`beta > 0`, one call of `optimize` on a `rows x cols` estimate field whose every pixel
equals `c`, with gradient buffers that are zero outside the interior (in particular in
their zero-initialised state), leaves `H = 0` and `V = 0` at every pixel of the grid, and
the right-hand side assembled by `computeS` is `b = I` exactly: the flattening of the
input plane, `b[p] = I(p / cols, p % cols)`. -/
theorem optimize_flat_estimate_rhs (ext : External α) (P : Params α) (rows cols : Nat)
    (S I : Mat α) (w : Work α (rows * cols)) (beta c : α) (_hbeta : 0 < beta)
    (hw : WorkInv rows cols w) (hr : S.rows = rows) (hc : S.cols = cols)
    (hIr : I.rows = rows) (hIc : I.cols = cols)
    (hS : ∀ j i, j < rows → i < cols → S.data j i = c) :
    (∀ j i, j < rows → i < cols →
        (optimize ext P S I w beta).2.H.data j i = 0 ∧
        (optimize ext P S I w beta).2.V.data j i = 0) ∧
      rightHandSide w.g (cvMat2Vec I w.g.I_vec)
          (cvMat2Vec (optimize ext P S I w beta).2.H w.g.H_vec)
          (cvMat2Vec (optimize ext P S I w beta).2.V w.g.V_vec) beta =
        toFin (rows * cols) (cvMat2Vec I w.g.I_vec) ∧
      ∀ p : Fin (rows * cols),
        toFin (rows * cols) (cvMat2Vec I w.g.I_vec) p = I.data (p.val / cols) (p.val % cols) := by
  have hHV := optimize_HV_flat ext P rows cols S I w beta c hw hr hc hS
  have hw' := optimize_inv ext P rows cols S I w beta hw hr hc
  refine ⟨hHV, ?_, fun p => ?_⟩
  · exact rightHandSide_of_zero rows cols w.g I _ _ beta ⟨hw'.2.1.1, hw'.2.1.2.1⟩
      ⟨hw'.2.1.2.2.1, hw'.2.1.2.2.2⟩ hHV
  · rw [toFin_cvMat2Vec I _ rows cols hIr hIc]

lemma exampleWork_inv : WorkInv 2 2 exampleWork :=
  ⟨fun _ _ _ => ⟨rfl, rfl⟩, ⟨rfl, rfl, rfl, rfl⟩, rfl, rfl, rfl, rfl⟩

/-- Instance of C17 on the `2 x 2` field of value 3 with `lambda = beta = 1`, the buffers
`H` and `V` holding 7 before the call. -/
theorem optimize_flat_estimate_rhs_witness :
    ((0 : ℚ) < 1 ∧ WorkInv 2 2 exampleWork) ∧
      (optimize exampleExternal (Params.ofConfig 1 8 2 true 1000) (flat 2 2 3) exampleField
          exampleWork 1).2.H.data 1 0 = 0 ∧
      rightHandSide exampleWork.g (cvMat2Vec exampleField exampleWork.g.I_vec)
          (cvMat2Vec (optimize exampleExternal (Params.ofConfig 1 8 2 true 1000) (flat 2 2 3)
            exampleField exampleWork 1).2.H exampleWork.g.H_vec)
          (cvMat2Vec (optimize exampleExternal (Params.ofConfig 1 8 2 true 1000) (flat 2 2 3)
            exampleField exampleWork 1).2.V exampleWork.g.V_vec) 1 =
        toFin (2 * 2) (cvMat2Vec exampleField exampleWork.g.I_vec) :=
  ⟨⟨one_pos, exampleWork_inv⟩,
    ((optimize_flat_estimate_rhs exampleExternal (Params.ofConfig 1 8 2 true 1000) 2 2
      (flat 2 2 3) exampleField exampleWork 1 3 one_pos exampleWork_inv rfl rfl rfl rfl
      (fun _ _ _ _ => rfl)).1 1 0 (by decide) (by decide)).1,
    (optimize_flat_estimate_rhs exampleExternal (Params.ofConfig 1 8 2 true 1000) 2 2
      (flat 2 2 3) exampleField exampleWork 1 3 one_pos exampleWork_inv rfl rfl rfl rfl
      (fun _ _ _ _ => rfl)).2.1⟩

/-- Values of `H` and `V` after `optimize` at a pixel of the grid outside the interior:
the thresholded prior contents of the gradient buffers. -/
lemma optimize_HV_boundary (ext : External α) (P : Params α) {N : Nat} (S I : Mat α)
    (w : Work α N) (beta : α) (j i : Nat) (hj : j < S.rows) (hi : i < S.cols)
    (hb : ¬ (j < S.rows - 1 ∧ i < S.cols - 1)) :
    (optimize ext P S I w beta).2.H.data j i =
        (if w.grad_x.data j i * w.grad_x.data j i + w.grad_y.data j i * w.grad_y.data j i
            < P.lambda / beta then 0 else w.grad_x.data j i) ∧
      (optimize ext P S I w beta).2.V.data j i =
        (if w.grad_x.data j i * w.grad_x.data j i + w.grad_y.data j i * w.grad_y.data j i
            < P.lambda / beta then 0 else w.grad_y.data j i) := by
  rw [optimize_H, optimize_V, shrink_eq, computeGradient_eq]
  simp only [hj, hi, hb, and_self, if_true, if_false]

lemma optimize_HV_outside (ext : External α) (P : Params α) {N : Nat} (S I : Mat α)
    (w : Work α N) (beta : α) (j i : Nat) (hout : ¬ (j < S.rows ∧ i < S.cols)) :
    (optimize ext P S I w beta).2.H.data j i = w.H.data j i ∧
      (optimize ext P S I w beta).2.V.data j i = w.V.data j i := by
  rw [optimize_H, optimize_V, shrink_eq]
  simp only [hout, if_false, and_self]

/-- C14 (amended). The shrinkage step of `optimize` overwrites `H` and `V` at every pixel
of the grid, not only where the gradient was recomputed. At a pixel `(j,i)` of the last
row or the last column, with `gx`, `gy` the values that `grad_x` and `grad_y` held there
before the call, `H(j,i)` and `V(j,i)` become 0 if `gx^2 + gy^2 < lambda/beta` and `gx`,
`gy` otherwise, whatever `H` and `V` held before; in particular they become 0 when the
gradient buffers are 0 there. Only entries outside the `rows x cols` grid keep their
prior value. -/
theorem optimize_overwrites_boundary_HV (ext : External α) (P : Params α) {N : Nat}
    (S I : Mat α) (w : Work α N) (beta : α) (j i : Nat) :
    (j < S.rows → i < S.cols → ¬ (j < S.rows - 1 ∧ i < S.cols - 1) →
        (optimize ext P S I w beta).2.H.data j i =
          (if w.grad_x.data j i ^ 2 + w.grad_y.data j i ^ 2 < P.lambda / beta then 0
            else w.grad_x.data j i) ∧
        (optimize ext P S I w beta).2.V.data j i =
          (if w.grad_x.data j i ^ 2 + w.grad_y.data j i ^ 2 < P.lambda / beta then 0
            else w.grad_y.data j i) ∧
        (w.grad_x.data j i = 0 → w.grad_y.data j i = 0 →
          (optimize ext P S I w beta).2.H.data j i = 0 ∧
          (optimize ext P S I w beta).2.V.data j i = 0)) ∧
      (¬ (j < S.rows ∧ i < S.cols) →
        (optimize ext P S I w beta).2.H.data j i = w.H.data j i ∧
        (optimize ext P S I w beta).2.V.data j i = w.V.data j i) := by
  refine ⟨fun hj hi hb => ?_, optimize_HV_outside ext P S I w beta j i⟩
  have h := optimize_HV_boundary ext P S I w beta j i hj hi hb
  rw [← pow_two, ← pow_two] at h
  refine ⟨h.1, h.2, fun hx hy => ?_⟩
  rw [h.1, h.2, hx, hy]
  simp

/-- C14 as stated fails: on the `2 x 2` field with `lambda = beta = 1` and zero gradient
buffers, `H` and `V` hold 7 at the last-row, last-column pixel `(1,1)` before the call
and 0 after it. -/
theorem optimize_resets_boundary_HV :
    exampleWork.H.data 1 1 = 7 ∧ exampleWork.V.data 1 1 = 7 ∧
      (optimize exampleExternal (Params.ofConfig 1 8 2 true 1000) exampleField exampleField
        exampleWork 1).2.H.data 1 1 = 0 ∧
      (optimize exampleExternal (Params.ofConfig 1 8 2 true 1000) exampleField exampleField
        exampleWork 1).2.V.data 1 1 = 0 := by
  have h := optimize_HV_boundary exampleExternal (Params.ofConfig 1 8 2 true 1000)
    exampleField exampleField exampleWork 1 1 1 (by decide) (by decide) (by decide)
  refine ⟨rfl, rfl, ?_, ?_⟩
  · rw [h.1]; simp [exampleWork, flat]
  · rw [h.2]; simp [exampleWork, flat]

end BoundaryShrinkLemmas

/-! ## Boundary invariant -/

section BoundaryInvariant

variable {α : Type} [LinearOrderedField α]

lemma optimizeChannels_nil_right (ext : External α) (P : Params α) {N : Nat} (beta : α)
    (Ss : List (Mat α)) (w : Work α N) :
    optimizeChannels ext P beta Ss [] w = (Ss, w) := by
  cases Ss <;> rfl

lemma optimizeChannels_nil_left (ext : External α) (P : Params α) {N : Nat} (beta : α)
    (Is : List (Mat α)) (w : Work α N) :
    optimizeChannels ext P beta [] Is w = ([], w) := by
  cases Is <;> rfl

/-- The channel loop run on the first `m` channels and then on the others is the
channel loop on all of them. -/
lemma optimizeChannels_split (ext : External α) (P : Params α) {N : Nat} (beta : α)
    (m : Nat) : ∀ (Ss Is : List (Mat α)) (w : Work α N),
    optimizeChannels ext P beta Ss Is w =
      ((optimizeChannels ext P beta (Ss.take m) (Is.take m) w).1 ++
        (optimizeChannels ext P beta (Ss.drop m) (Is.drop m)
          (optimizeChannels ext P beta (Ss.take m) (Is.take m) w).2).1,
       (optimizeChannels ext P beta (Ss.drop m) (Is.drop m)
          (optimizeChannels ext P beta (Ss.take m) (Is.take m) w).2).2) := by
  induction m with
  | zero => intro Ss Is w; simp [optimizeChannels_nil_left]
  | succ m ih =>
    intro Ss Is w
    cases Ss with
    | nil => simp [optimizeChannels_nil_left]
    | cons S Ss =>
      cases Is with
      | nil => simp [optimizeChannels_nil_right]
      | cons I Is =>
        simp only [List.take_succ_cons, List.drop_succ_cons, optimizeChannels]
        rw [ih Ss Is (optimize ext P S I w beta).2]
        simp

/-- After the channel loop has run `optimize` on at least one channel, `H` and `V`
vanish on the last row and the last column. -/
lemma optimizeChannels_boundary (ext : External α) (P : Params α) (rows cols : Nat)
    (beta : α) : ∀ (Ss Is : List (Mat α)) (w : Work α (rows * cols)), WorkInv rows cols w →
      (∀ S ∈ Ss, S.rows = rows ∧ S.cols = cols) → Ss ≠ [] → Is ≠ [] →
      ∀ j i, j < rows → i < cols → ¬ (j < rows - 1 ∧ i < cols - 1) →
        (optimizeChannels ext P beta Ss Is w).2.H.data j i = 0 ∧
        (optimizeChannels ext P beta Ss Is w).2.V.data j i = 0 := by
  intro Ss
  induction Ss with
  | nil => intro Is w _ _ h; exact absurd rfl h
  | cons S Ss ih =>
    intro Is w hw hd _ hIs j i hj hi hb
    cases Is with
    | nil => exact absurd rfl hIs
    | cons I Is =>
      have hd0 := hd S (List.mem_cons_self _ _)
      have hw1 := optimize_inv ext P rows cols S I w beta hw hd0.1 hd0.2
      simp only [optimizeChannels]
      by_cases hrest : Ss ≠ [] ∧ Is ≠ []
      · exact ih Is _ hw1 (fun T hT => hd T (List.mem_cons_of_mem _ hT)) hrest.1 hrest.2
          j i hj hi hb
      · have hstop : optimizeChannels ext P beta Ss Is (optimize ext P S I w beta).2 =
            (Ss, (optimize ext P S I w beta).2) := by
          rcases not_and_or.1 hrest with h | h
          · rw [not_not.1 h, optimizeChannels_nil_left]
          · rw [not_not.1 h, optimizeChannels_nil_right]
        rw [hstop]
        have h := optimize_HV_boundary ext P S I w beta j i (by rw [hd0.1]; exact hj)
          (by rw [hd0.2]; exact hi) (by rw [hd0.1, hd0.2]; exact hb)
        obtain ⟨gx0, gy0⟩ := hw.1 j i hb
        rw [h.1, h.2, gx0, gy0]
        simp

lemma iterate_length (ext : External α) (P : Params α) (rows cols : Nat)
    (I_channels : List (Mat α)) (H V : Nat → Nat → α)
    (hdims : ∀ J ∈ I_channels, J.rows = rows ∧ J.cols = cols) (k : Nat) :
    ((loopBody ext P I_channels)^[k]
      (initialState P rows cols I_channels H V)).S_channels.length = I_channels.length := by
  induction k with
  | zero => rfl
  | succ k ih =>
    rw [Function.iterate_succ_apply']
    have hinv := iterate_inv ext P rows cols I_channels H V hdims k
    have h := optimizeChannels_spec ext P rows cols
      ((loopBody ext P I_channels)^[k] (initialState P rows cols I_channels H V)).beta
      ((loopBody ext P I_channels)^[k] (initialState P rows cols I_channels H V)).S_channels
      I_channels _ hinv.1 hinv.2
    exact h.2.1.trans ih

/-- Right after the channel loop has processed channels `0..n`, the gradient buffers
and `H`, `V` vanish on the last row and the last column. -/
lemma channel_prefix_boundary (ext : External α) (P : Params α) (rows cols : Nat)
    (beta : α) (Ss Is : List (Mat α)) (w : Work α (rows * cols)) (n j i : Nat)
    (hw : WorkInv rows cols w) (hd : ∀ S ∈ Ss, S.rows = rows ∧ S.cols = cols)
    (hn : n < Ss.length) (hn' : n < Is.length)
    (hj : j < rows) (hi : i < cols) (hb : ¬ (j < rows - 1 ∧ i < cols - 1)) :
    (optimizeChannels ext P beta (Ss.take (n + 1)) (Is.take (n + 1)) w).2.grad_x.data j i = 0 ∧
      (optimizeChannels ext P beta (Ss.take (n + 1)) (Is.take (n + 1)) w).2.grad_y.data j i = 0 ∧
      (optimizeChannels ext P beta (Ss.take (n + 1)) (Is.take (n + 1)) w).2.H.data j i = 0 ∧
      (optimizeChannels ext P beta (Ss.take (n + 1)) (Is.take (n + 1)) w).2.V.data j i = 0 := by
  have hpre : ∀ S ∈ Ss.take (n + 1), S.rows = rows ∧ S.cols = cols :=
    fun S hS => hd S (List.mem_of_mem_take hS)
  have hspec := optimizeChannels_spec ext P rows cols beta (Ss.take (n + 1))
    (Is.take (n + 1)) w hw hpre
  have hne : ∀ l : List (Mat α), n < l.length → l.take (n + 1) ≠ [] := by
    intro l hl h
    rcases List.take_eq_nil_iff.1 h with h0 | h0
    · exact absurd h0 (Nat.succ_ne_zero n)
    · rw [h0] at hl
      exact absurd hl (Nat.not_lt_zero n)
  have hHV := optimizeChannels_boundary ext P rows cols beta (Ss.take (n + 1))
    (Is.take (n + 1)) w hw hpre (hne Ss hn) (hne Is hn') j i hj hi hb
  exact ⟨(hspec.1.1 j i hb).1, (hspec.1.1 j i hb).2, hHV.1, hHV.2⟩

/-- C18. Boundary invariant: throughout any run of `minimizeL0Gradient` on a
`rows x cols` image, for every number `k` of completed outer iterations, every channel
`n` and every pixel `(j,i)` of the last row or the last column: `grad_x` and `grad_y`
are 0 there before the pass, and right after the call of `optimize` on channel `n` in
the next pass (the channel loop having processed channels `0..n`) `grad_x`, `grad_y`,
`H` and `V` are all 0 there, whatever `lambda`, `beta` and the initial contents of `H`
and `V`. -/
theorem boundary_entries_stay_zero (ext : External α) (P : Params α) (rows cols : Nat)
    (I_channels : List (Mat α)) (H V : Nat → Nat → α) (k n j i : Nat)
    (hdims : ∀ J ∈ I_channels, J.rows = rows ∧ J.cols = cols)
    (hn : n < I_channels.length)
    (hj : j < rows) (hi : i < cols) (hb : ¬ (j < rows - 1 ∧ i < cols - 1)) :
    (((loopBody ext P I_channels)^[k]
          (initialState P rows cols I_channels H V)).w.grad_x.data j i = 0 ∧
        ((loopBody ext P I_channels)^[k]
          (initialState P rows cols I_channels H V)).w.grad_y.data j i = 0) ∧
      ((optimizeChannels ext P
          ((loopBody ext P I_channels)^[k] (initialState P rows cols I_channels H V)).beta
          (((loopBody ext P I_channels)^[k]
            (initialState P rows cols I_channels H V)).S_channels.take (n + 1))
          (I_channels.take (n + 1))
          ((loopBody ext P I_channels)^[k] (initialState P rows cols I_channels H V)).w).2.grad_x.data
            j i = 0 ∧
        (optimizeChannels ext P
          ((loopBody ext P I_channels)^[k] (initialState P rows cols I_channels H V)).beta
          (((loopBody ext P I_channels)^[k]
            (initialState P rows cols I_channels H V)).S_channels.take (n + 1))
          (I_channels.take (n + 1))
          ((loopBody ext P I_channels)^[k] (initialState P rows cols I_channels H V)).w).2.grad_y.data
            j i = 0 ∧
        (optimizeChannels ext P
          ((loopBody ext P I_channels)^[k] (initialState P rows cols I_channels H V)).beta
          (((loopBody ext P I_channels)^[k]
            (initialState P rows cols I_channels H V)).S_channels.take (n + 1))
          (I_channels.take (n + 1))
          ((loopBody ext P I_channels)^[k] (initialState P rows cols I_channels H V)).w).2.H.data
            j i = 0 ∧
        (optimizeChannels ext P
          ((loopBody ext P I_channels)^[k] (initialState P rows cols I_channels H V)).beta
          (((loopBody ext P I_channels)^[k]
            (initialState P rows cols I_channels H V)).S_channels.take (n + 1))
          (I_channels.take (n + 1))
          ((loopBody ext P I_channels)^[k] (initialState P rows cols I_channels H V)).w).2.V.data
            j i = 0) := by
  have hinv := iterate_inv ext P rows cols I_channels H V hdims k
  have hlen := iterate_length ext P rows cols I_channels H V hdims k
  exact ⟨hinv.1.1 j i hb,
    channel_prefix_boundary ext P rows cols _ _ I_channels _ n j i hinv.1 hinv.2
      (by rw [hlen]; exact hn) hn hj hi hb⟩

/-- Instance of C18 on a `2 x 2` image with two channels, `H` and `V` holding 7 at the
start: after one full pass and the call on channel 1 of the second pass, `H` is 0 at
the last-row pixel `(1,0)`. -/
theorem boundary_entries_stay_zero_witness :
    ((∀ J ∈ [exampleField, flat 2 2 3], J.rows = 2 ∧ J.cols = 2) ∧
        1 < [exampleField, flat 2 2 (3 : ℚ)].length ∧ ¬ (1 < 2 - 1 ∧ 0 < 2 - 1)) ∧
      (optimizeChannels exampleExternal (Params.ofConfig 1 8 2 true 1000)
          ((loopBody exampleExternal (Params.ofConfig 1 8 2 true 1000)
            [exampleField, flat 2 2 3])^[1]
            (initialState (Params.ofConfig 1 8 2 true 1000) 2 2 [exampleField, flat 2 2 3]
              (fun _ _ => 7) (fun _ _ => 7))).beta
          (((loopBody exampleExternal (Params.ofConfig 1 8 2 true 1000)
            [exampleField, flat 2 2 3])^[1]
            (initialState (Params.ofConfig 1 8 2 true 1000) 2 2 [exampleField, flat 2 2 3]
              (fun _ _ => 7) (fun _ _ => 7))).S_channels.take (1 + 1))
          ([exampleField, flat 2 2 3].take (1 + 1))
          ((loopBody exampleExternal (Params.ofConfig 1 8 2 true 1000)
            [exampleField, flat 2 2 3])^[1]
            (initialState (Params.ofConfig 1 8 2 true 1000) 2 2 [exampleField, flat 2 2 3]
              (fun _ _ => 7) (fun _ _ => 7))).w).2.H.data 1 0 = 0 :=
  have hd : ∀ J ∈ [exampleField, flat 2 2 (3 : ℚ)], J.rows = 2 ∧ J.cols = 2 := by
    intro J hJ
    simp only [List.mem_cons, List.mem_singleton, List.not_mem_nil, or_false] at hJ
    rcases hJ with rfl | rfl <;> exact ⟨rfl, rfl⟩
  ⟨⟨hd, by decide, by decide⟩,
    (boundary_entries_stay_zero exampleExternal (Params.ofConfig 1 8 2 true 1000) 2 2
      [exampleField, flat 2 2 3] (fun _ _ => 7) (fun _ _ => 7) 1 1 1 0 hd (by decide)
      (by decide) (by decide) (by decide)).2.2.2.1⟩

end BoundaryInvariant

/-! ## Schedule and termination -/

section ScheduleLemmas

variable {α : Type} [LinearOrderedField α]

end ScheduleLemmas

/-! ## Channel independence -/

section ChannelLemmas

open Matrix
variable {α : Type} [LinearOrderedField α]

/-- Over the grid, `H` and `V` after `optimize` depend on the buffers only through the
invariant: two buffer states that satisfy it give the same values. -/
lemma optimize_HV_indep (ext : External α) (P : Params α) (rows cols : Nat) (S I : Mat α)
    (w w' : Work α (rows * cols)) (beta : α) (hw : WorkInv rows cols w)
    (hw' : WorkInv rows cols w') (hr : S.rows = rows) (hc : S.cols = cols)
    (j i : Nat) (hj : j < rows) (hi : i < cols) :
    (optimize ext P S I w beta).2.H.data j i = (optimize ext P S I w' beta).2.H.data j i ∧
      (optimize ext P S I w beta).2.V.data j i = (optimize ext P S I w' beta).2.V.data j i := by
  by_cases hint : j < rows - 1 ∧ i < cols - 1
  · have h1 := optimize_HV_interior ext P S I w beta j i (by rw [hr]; exact hint.1)
      (by rw [hc]; exact hint.2)
    have h2 := optimize_HV_interior ext P S I w' beta j i (by rw [hr]; exact hint.1)
      (by rw [hc]; exact hint.2)
    exact ⟨h1.1.trans h2.1.symm, h1.2.trans h2.2.symm⟩
  · have h1 := optimize_HV_boundary ext P S I w beta j i (by rw [hr]; exact hj)
      (by rw [hc]; exact hi) (by rw [hr, hc]; exact hint)
    have h2 := optimize_HV_boundary ext P S I w' beta j i (by rw [hr]; exact hj)
      (by rw [hc]; exact hi) (by rw [hr, hc]; exact hint)
    obtain ⟨a1, a2⟩ := hw.1 j i hint
    obtain ⟨b1, b2⟩ := hw'.1 j i hint
    rw [h1.1, h1.2, h2.1, h2.2, a1, a2, b1, b2]
    exact ⟨rfl, rfl⟩

omit [LinearOrderedField α] in
lemma toFin_cvMat2Vec_congr (M M' : Mat α) (v v' : Nat → α) (rows cols : Nat)
    (hM : M.rows = rows ∧ M.cols = cols) (hM' : M'.rows = rows ∧ M'.cols = cols)
    (h : ∀ j i, j < rows → i < cols → M.data j i = M'.data j i) :
    toFin (rows * cols) (cvMat2Vec M v) = toFin (rows * cols) (cvMat2Vec M' v') := by
  rw [toFin_cvMat2Vec M v rows cols hM.1 hM.2, toFin_cvMat2Vec M' v' rows cols hM'.1 hM'.2]
  funext p
  have hcols : 0 < cols := Nat.pos_of_ne_zero fun h0 => by
    have := p.isLt; simp [h0] at this
  have hp : p.val < cols * rows := lt_of_lt_of_eq p.isLt (Nat.mul_comm rows cols)
  exact h _ _ (Nat.div_lt_of_lt_mul hp) (Nat.mod_lt _ hcols)

/-- The estimate returned by `optimize` does not depend on the state of the shared
buffers, as long as they satisfy the invariant. -/
lemma optimize_indep (ext : External α) (P : Params α) (rows cols : Nat) (S I : Mat α)
    (w w' : Work α (rows * cols)) (beta : α) (hw : WorkInv rows cols w)
    (hw' : WorkInv rows cols w') (hr : S.rows = rows) (hc : S.cols = cols)
    (hI : I.rows = rows ∧ I.cols = cols) :
    (optimize ext P S I w beta).1 = (optimize ext P S I w' beta).1 := by
  have hA : systemMatrix w.g beta = systemMatrix w'.g beta := by
    unfold systemMatrix; rw [hw.2.2.1, hw.2.2.2.1, hw'.2.2.1, hw'.2.2.2.1]
  have ho := optimize_inv ext P rows cols S I w beta hw hr hc
  have ho' := optimize_inv ext P rows cols S I w' beta hw' hr hc
  have hHV := optimize_HV_indep ext P rows cols S I w w' beta hw hw' hr hc
  have hb : rightHandSide w.g (cvMat2Vec I w.g.I_vec)
      (cvMat2Vec (optimize ext P S I w beta).2.H w.g.H_vec)
      (cvMat2Vec (optimize ext P S I w beta).2.V w.g.V_vec) beta =
    rightHandSide w'.g (cvMat2Vec I w'.g.I_vec)
      (cvMat2Vec (optimize ext P S I w' beta).2.H w'.g.H_vec)
      (cvMat2Vec (optimize ext P S I w' beta).2.V w'.g.V_vec) beta := by
    unfold rightHandSide
    rw [hw.2.2.2.2.1, hw.2.2.2.2.2, hw'.2.2.2.2.1, hw'.2.2.2.2.2,
      toFin_cvMat2Vec_congr _ _ w.g.H_vec w'.g.H_vec rows cols ⟨ho.2.1.1, ho.2.1.2.1⟩
        ⟨ho'.2.1.1, ho'.2.1.2.1⟩ (fun j i hj hi => (hHV j i hj hi).1),
      toFin_cvMat2Vec_congr _ _ w.g.V_vec w'.g.V_vec rows cols ⟨ho.2.1.2.2.1, ho.2.1.2.2.2⟩
        ⟨ho'.2.1.2.2.1, ho'.2.1.2.2.2⟩ (fun j i hj hi => (hHV j i hj hi).2),
      toFin_cvMat2Vec_congr I I w.g.I_vec w'.g.I_vec rows cols hI hI (fun _ _ _ _ => rfl)]
  rw [optimize_fst, optimize_fst, hA, hb]

/-- The number of passes made by the loop is determined by the parameters alone. -/
lemma passes_unique (P : Params α) (n n' : Nat)
    (h2 : ∀ k, k < n → P.beta0 * P.kappa ^ k < P.beta_max)
    (h3 : P.beta_max ≤ P.beta0 * P.kappa ^ n ∨ (1 ≤ n ∧ P.iter_max ≤ n))
    (h4 : ∀ k, 1 ≤ k → k < n → k < P.iter_max)
    (h2' : ∀ k, k < n' → P.beta0 * P.kappa ^ k < P.beta_max)
    (h3' : P.beta_max ≤ P.beta0 * P.kappa ^ n' ∨ (1 ≤ n' ∧ P.iter_max ≤ n'))
    (h4' : ∀ k, 1 ≤ k → k < n' → k < P.iter_max) : n = n' := by
  rcases Nat.lt_trichotomy n n' with h | h | h
  · exfalso
    rcases h3 with hb | ⟨h1, hc⟩
    · exact absurd (h2' n h) (not_lt.2 hb)
    · have := h4' n h1 h
      omega
  · exact h
  · exfalso
    rcases h3' with hb | ⟨h1, hc⟩
    · exact absurd (h2 n' h) (not_lt.2 hb)
    · have := h4 n' h1 h
      omega

/-- Pass by pass, channel `n` of a multi-channel run has the estimate of the run on
that channel alone. -/
lemma iterate_channel_alone (ext : External α) (P : Params α) (rows cols : Nat)
    (I_channels : List (Mat α)) (H V H1 V1 : Nat → Nat → α) (n : Nat) (I : Mat α)
    (hdims : ∀ J ∈ I_channels, J.rows = rows ∧ J.cols = cols)
    (hn : I_channels[n]? = some I) (k : Nat) :
    ((loopBody ext P I_channels)^[k]
        (initialState P rows cols I_channels H V)).S_channels[n]? =
      ((loopBody ext P [I])^[k] (initialState P rows cols [I] H1 V1)).S_channels[0]? := by
  have hI : I ∈ I_channels := List.getElem?_mem hn
  have hd1 : ∀ J ∈ [I], J.rows = rows ∧ J.cols = cols := by
    intro J hJ
    rw [List.mem_singleton.1 hJ]
    exact hdims I hI
  induction k with
  | zero => rw [Function.iterate_zero, Function.iterate_zero]; exact hn
  | succ k ih =>
    have hinv := iterate_inv ext P rows cols I_channels H V hdims k
    have hinv1 := iterate_inv ext P rows cols [I] H1 V1 hd1 k
    have hlen1 := iterate_length ext P rows cols [I] H1 V1 hd1 k
    obtain ⟨S, hS⟩ : ∃ S, ((loopBody ext P [I])^[k]
        (initialState P rows cols [I] H1 V1)).S_channels[0]? = some S := by
      rw [List.getElem?_eq_getElem (by rw [hlen1]; exact Nat.one_pos)]
      exact ⟨_, rfl⟩
    have hSm := ih.trans hS
    have hSd := hinv1.2 S (List.getElem?_mem hS)
    obtain ⟨_, _, _, hch⟩ := optimizeChannels_spec ext P rows cols
      ((loopBody ext P I_channels)^[k] (initialState P rows cols I_channels H V)).beta
      ((loopBody ext P I_channels)^[k] (initialState P rows cols I_channels H V)).S_channels
      I_channels _ hinv.1 hinv.2
    obtain ⟨_, _, _, hch1⟩ := optimizeChannels_spec ext P rows cols
      ((loopBody ext P [I])^[k] (initialState P rows cols [I] H1 V1)).beta
      ((loopBody ext P [I])^[k] (initialState P rows cols [I] H1 V1)).S_channels
      [I] _ hinv1.1 hinv1.2
    obtain ⟨w', hw', hres⟩ := hch n S I hSm hn
    obtain ⟨w1, hw1, hres1⟩ := hch1 0 S I hS rfl
    have hb : ((loopBody ext P I_channels)^[k]
          (initialState P rows cols I_channels H V)).beta =
        ((loopBody ext P [I])^[k] (initialState P rows cols [I] H1 V1)).beta := by
      rw [iterate_beta, iterate_beta]; rfl
    rw [Function.iterate_succ_apply', Function.iterate_succ_apply']
    refine (hres.trans ?_).trans hres1.symm
    rw [hb, optimize_indep ext P rows cols S I w' w1 _ hw' hw1 hSd.1 hSd.2 (hdims I hI)]

/-- C11. Channel independence: for every `rows x cols` multi-channel image and parameter
set, and every channel plane `I` at position `n`, the run on the whole image and the run
on `I` alone as a single-channel image both return after the same number `m` of passes,
and after every number `k` of passes the estimate of channel `n` in the first run equals
the estimate in the second, whatever the buffers `H`, `V` held at the start of either
run. The same holds against any other image that has `I` at some position `n2`: the
result for a channel depends neither on the contents nor on the order of the other
channels, although `H`, `V`, `grad_x`, `grad_y` are reused across channels. -/
theorem channel_independence (ext : External α) (P : Params α) (rows cols : Nat)
    (I_channels I_channels2 : List (Mat α)) (H V H1 V1 H2 V2 : Nat → Nat → α)
    (n n2 : Nat) (I : Mat α)
    (hdims : ∀ J ∈ I_channels, J.rows = rows ∧ J.cols = cols)
    (hdims2 : ∀ J ∈ I_channels2, J.rows = rows ∧ J.cols = cols)
    (hn : I_channels[n]? = some I) (hn2 : I_channels2[n2]? = some I) :
    (∃ m,
        runLoop ext P rows cols I_channels H V =
          some ((loopBody ext P I_channels)^[m] (initialState P rows cols I_channels H V)) ∧
        runLoop ext P rows cols [I] H1 V1 =
          some ((loopBody ext P [I])^[m] (initialState P rows cols [I] H1 V1))) ∧
      (∀ k, ((loopBody ext P I_channels)^[k]
            (initialState P rows cols I_channels H V)).S_channels[n]? =
          ((loopBody ext P [I])^[k] (initialState P rows cols [I] H1 V1)).S_channels[0]?) ∧
      (∀ k, ((loopBody ext P I_channels)^[k]
            (initialState P rows cols I_channels H V)).S_channels[n]? =
          ((loopBody ext P I_channels2)^[k]
            (initialState P rows cols I_channels2 H2 V2)).S_channels[n2]?) := by
  refine ⟨?_, iterate_channel_alone ext P rows cols I_channels H V H1 V1 n I hdims hn,
    fun k => ?_⟩
  · obtain ⟨m, h1, h2, h3, h4⟩ := runLoop_spec ext P rows cols I_channels H V
    obtain ⟨m', h1', h2', h3', h4'⟩ := runLoop_spec ext P rows cols [I] H1 V1
    have hm : m = m' := passes_unique P m m' h2 h3 h4 h2' h3' h4'
    subst hm
    exact ⟨m, h1, h1'⟩
  · rw [iterate_channel_alone ext P rows cols I_channels H V H1 V1 n I hdims hn k,
      iterate_channel_alone ext P rows cols I_channels2 H2 V2 H1 V1 n2 I hdims2 hn2 k]

/-- Instance of C11 on a `2 x 2` image: the plane with a single 1, as channel 0 of a
two-channel image and as channel 1 of the image with the channels swapped, has the same
estimates as when it is processed alone. -/
theorem channel_independence_witness :
    ((∀ J ∈ [exampleField, flat 2 2 3], J.rows = 2 ∧ J.cols = 2) ∧
        (∀ J ∈ [flat 2 2 3, exampleField], J.rows = 2 ∧ J.cols = 2) ∧
        [exampleField, flat 2 2 3][0]? = some exampleField ∧
        [flat 2 2 3, exampleField][1]? = some exampleField) ∧
      ∀ k, ((loopBody exampleExternal (Params.ofConfig 1 8 2 true 1000)
            [exampleField, flat 2 2 3])^[k]
            (initialState (Params.ofConfig 1 8 2 true 1000) 2 2 [exampleField, flat 2 2 3]
              (fun _ _ => 7) (fun _ _ => 7))).S_channels[0]? =
          ((loopBody exampleExternal (Params.ofConfig 1 8 2 true 1000) [exampleField])^[k]
            (initialState (Params.ofConfig 1 8 2 true 1000) 2 2 [exampleField]
              (fun _ _ => 0) (fun _ _ => 0))).S_channels[0]? :=
  have hd : ∀ J ∈ [exampleField, flat 2 2 (3 : ℚ)], J.rows = 2 ∧ J.cols = 2 := by
    intro J hJ
    simp only [List.mem_cons, List.mem_singleton, List.not_mem_nil, or_false] at hJ
    rcases hJ with rfl | rfl <;> exact ⟨rfl, rfl⟩
  have hd2 : ∀ J ∈ [flat 2 2 (3 : ℚ), exampleField], J.rows = 2 ∧ J.cols = 2 := by
    intro J hJ
    simp only [List.mem_cons, List.mem_singleton, List.not_mem_nil, or_false] at hJ
    rcases hJ with rfl | rfl <;> exact ⟨rfl, rfl⟩
  ⟨⟨hd, hd2, rfl, rfl⟩,
    (channel_independence exampleExternal (Params.ofConfig 1 8 2 true 1000) 2 2
      [exampleField, flat 2 2 3] [flat 2 2 3, exampleField] (fun _ _ => 7) (fun _ _ => 7)
      (fun _ _ => 0) (fun _ _ => 0) (fun _ _ => 1) (fun _ _ => 1) 0 1 exampleField hd hd2
      rfl rfl).2.1⟩

end ChannelLemmas

/-! ## Configuration round trip -/

section ConfigLemmas

lemma takeWhile_field (t rest : List Char) (d : Char) (ht : d ∉ t) :
    (t ++ d :: rest).takeWhile (fun c => c != d) = t ∧
      (t ++ d :: rest).dropWhile (fun c => c != d) = d :: rest := by
  induction t with
  | nil => simp
  | cons a t ih =>
    have ha : a ≠ d := fun h => ht (h ▸ List.mem_cons_self _ _)
    have ht' : d ∉ t := fun h => ht (List.mem_cons_of_mem _ h)
    simp [ha, ih ht']

lemma takeWhile_last (t : List Char) (d : Char) (ht : d ∉ t) :
    t.takeWhile (fun c => c != d) = t ∧ t.dropWhile (fun c => c != d) = [] := by
  induction t with
  | nil => simp
  | cons a t ih =>
    have ha : a ≠ d := fun h => ht (h ▸ List.mem_cons_self _ _)
    have ht' : d ∉ t := fun h => ht (List.mem_cons_of_mem _ h)
    simp [ha, ih ht']

lemma getline_field (t rest : List Char) (d : Char) (ht : d ∉ t) :
    getline (t ++ d :: rest) d = some (t, rest) := by
  have h := takeWhile_field t rest d ht
  cases hs : t ++ d :: rest with
  | nil => simp at hs
  | cons a l =>
    rw [hs] at h
    simp only [getline, h.1, h.2, List.drop_succ_cons, List.drop_zero]

lemma getline_last (t : List Char) (d : Char) (ht : d ∉ t) (hne : t ≠ []) :
    getline t d = some (t, []) := by
  have h := takeWhile_last t d ht
  cases t with
  | nil => exact absurd rfl hne
  | cons a l => simp only [getline, h.1, h.2, List.drop_nil]

/-- The loop of `Split` on non-empty fields joined by the delimiter returns the fields. -/
lemma splitLoop_joinFields (d : Char) : ∀ (ts acc : List (List Char)) (fuel : Nat),
    (∀ t ∈ ts, t ≠ [] ∧ d ∉ t) → ts.length < fuel →
    splitLoop d fuel (joinFields d ts) acc = some (acc ++ ts) := by
  intro ts
  induction ts with
  | nil =>
    intro acc fuel _ hf
    obtain ⟨f, rfl⟩ : ∃ f, fuel = f + 1 := ⟨fuel - 1, by simp at hf; omega⟩
    simp [splitLoop, joinFields, getline]
  | cons t ts ih =>
    intro acc fuel hts hf
    have ht := hts t (List.mem_cons_self _ _)
    obtain ⟨f, rfl⟩ : ∃ f, fuel = f + 1 := ⟨fuel - 1, by simp at hf; omega⟩
    cases ts with
    | nil =>
      obtain ⟨f', rfl⟩ : ∃ f', f = f' + 1 := ⟨f - 1, by simp at hf; omega⟩
      simp only [joinFields, splitLoop, getline_last t d ht.2 ht.1]
      rfl
    | cons u ts =>
      have hrec := ih (acc ++ [t]) f (fun x hx => hts x (List.mem_cons_of_mem _ hx))
        (by simp at hf ⊢; omega)
      simp only [joinFields, splitLoop, getline_field t _ d ht.2]
      rw [hrec]
      simp

lemma length_joinFields (d : Char) : ∀ ts : List (List Char), (∀ t ∈ ts, t ≠ []) →
    ts.length ≤ (joinFields d ts).length := by
  intro ts
  induction ts with
  | nil => intro _; simp [joinFields]
  | cons t ts ih =>
    intro hts
    have ht : 0 < t.length := List.length_pos.2 (hts t (List.mem_cons_self _ _))
    cases ts with
    | nil => simp [joinFields]; omega
    | cons u ts =>
      have := ih (fun x hx => hts x (List.mem_cons_of_mem _ hx))
      simp only [joinFields, List.length_append, List.length_cons] at this ⊢
      omega

lemma Split_joinFields (d : Char) (ts : List (List Char)) (hts : ∀ t ∈ ts, t ≠ [] ∧ d ∉ t) :
    Split (joinFields d ts) d = some ts := by
  unfold Split
  rw [splitLoop_joinFields d ts [] _ hts
    (Nat.lt_succ_of_le (length_joinFields d ts fun t ht => (hts t ht).1))]
  rfl

lemma not_mem_joinFields (d c : Char) (hc : c ≠ d) : ∀ ts : List (List Char),
    (∀ t ∈ ts, c ∉ t) → c ∉ joinFields d ts := by
  intro ts
  induction ts with
  | nil => intro _; simp [joinFields]
  | cons t ts ih =>
    intro hts
    cases ts with
    | nil => simpa [joinFields] using hts t (List.mem_cons_self _ _)
    | cons u ts =>
      have h1 := hts t (List.mem_cons_self _ _)
      have h2 := ih (fun x hx => hts x (List.mem_cons_of_mem _ hx))
      simp only [joinFields, List.mem_append, List.mem_cons, not_or] at h2 ⊢
      exact ⟨h1, hc, h2⟩

section
variable {α : Type}

lemma saveConfigFile_eq (fmt : α → List Char) (P : Params α) :
    saveConfigFile fmt P =
      joinFields ' ' ["--lambda".toList, fmt P.lambda, "--beta_max".toList, fmt P.beta_max,
        "--kappa".toList, fmt P.kappa, "--exact".toList,
        if P.exact then "true".toList else "false".toList] ++ ['\n'] := by
  have e1 : "--lambda ".toList = "--lambda".toList ++ [' '] := by decide
  have e2 : "--beta_max ".toList = "--beta_max".toList ++ [' '] := by decide
  have e3 : "--kappa ".toList = "--kappa".toList ++ [' '] := by decide
  have e4 : "--exact ".toList = "--exact".toList ++ [' '] := by decide
  have e5 : " ".toList = [' '] := by decide
  have e6 : "\n".toList = ['\n'] := by decide
  simp only [saveConfigFile, joinFields, e1, e2, e3, e4, e5, e6, List.append_assoc,
    List.singleton_append, List.cons_append, List.nil_append]

/-- C16. Config round trip: for every parameter set whose three numeric values print
as non-empty tokens without spaces, the file written by `saveConfigFile` is a line
followed by a newline, and that line, split on single spaces by `Split`, yields exactly
the 8 fields `[--lambda, v1, --beta_max, v2, --kappa, v3, --exact, true|false]`. When
the tokens hold no line break either, so that the first line read by `parseConfigFile`
is that line, the file passes the field-count check of `parseConfigFile` (size 8), and,
cxxopts giving as value of `exact` the argument after `--exact`, the parameters it
stores have the same `exact`. -/
theorem saveConfigFile_round_trip [LinearOrderedField α] (lib : Cxxopts α)
    (fmt : α → List Char) (P : Params α) (iter_max : Nat)
    (h1 : fmt P.lambda ≠ [] ∧ ' ' ∉ fmt P.lambda)
    (h2 : fmt P.beta_max ≠ [] ∧ ' ' ∉ fmt P.beta_max)
    (h3 : fmt P.kappa ≠ [] ∧ ' ' ∉ fmt P.kappa) :
    ∃ line, saveConfigFile fmt P = line ++ ['\n'] ∧
      Split line ' ' =
        some ["--lambda".toList, fmt P.lambda, "--beta_max".toList, fmt P.beta_max,
          "--kappa".toList, fmt P.kappa, "--exact".toList,
          if P.exact then "true".toList else "false".toList] ∧
      (('\n' ∉ fmt P.lambda ∧ '\n' ∉ fmt P.beta_max ∧ '\n' ∉ fmt P.kappa) →
        (∀ e : List Char,
          lib.asString ["tmp".toList, "--lambda".toList, fmt P.lambda, "--beta_max".toList,
            fmt P.beta_max, "--kappa".toList, fmt P.kappa, "--exact".toList, e]
            "exact".toList = e) →
        ∃ P', parseConfigFile lib (saveConfigFile fmt P) iter_max =
            some (Parsed.accepted P') ∧
          P'.exact = P.exact) := by
  have hfields : ∀ t ∈ ["--lambda".toList, fmt P.lambda, "--beta_max".toList, fmt P.beta_max,
      "--kappa".toList, fmt P.kappa, "--exact".toList,
      if P.exact then "true".toList else "false".toList],
      t ≠ [] ∧ ' ' ∉ t := by
    intro t ht
    simp only [List.mem_cons, List.mem_singleton, List.not_mem_nil, or_false] at ht
    rcases ht with rfl | rfl | rfl | rfl | rfl | rfl | rfl | rfl
    · decide
    · exact h1
    · decide
    · exact h2
    · decide
    · exact h3
    · decide
    · cases P.exact <;> decide
  have hsplit := Split_joinFields ' ' _ hfields
  refine ⟨_, saveConfigFile_eq fmt P, hsplit, fun hnl hlib => ?_⟩
  have hbreak : ∀ t ∈ ["--lambda".toList, fmt P.lambda, "--beta_max".toList, fmt P.beta_max,
      "--kappa".toList, fmt P.kappa, "--exact".toList,
      if P.exact then "true".toList else "false".toList], '\n' ∉ t := by
    intro t ht
    simp only [List.mem_cons, List.mem_singleton, List.not_mem_nil, or_false] at ht
    rcases ht with rfl | rfl | rfl | rfl | rfl | rfl | rfl | rfl
    · decide
    · exact hnl.1
    · decide
    · exact hnl.2.1
    · decide
    · exact hnl.2.2
    · decide
    · cases P.exact <;> decide
  have hline := not_mem_joinFields ' ' '\n' (by decide) _ hbreak
  have hget := getline_field _ [] '\n' hline
  simp only [parseConfigFile, saveConfigFile_eq, hget, hsplit, List.length_cons,
    List.length_nil]
  refine ⟨_, rfl, ?_⟩
  simp only [hlib]
  cases P.exact <;> decide

/-- Instance of C16 for `lambda = 1`, `beta_max = 8`, `kappa = 2`, `exact = false`,
numbers printed as fractions. -/
theorem saveConfigFile_round_trip_witness :
    ((exampleFmt 1 ≠ [] ∧ ' ' ∉ exampleFmt 1) ∧ (exampleFmt 8 ≠ [] ∧ ' ' ∉ exampleFmt 8) ∧
        (exampleFmt 2 ≠ [] ∧ ' ' ∉ exampleFmt 2)) ∧
      ∃ line, saveConfigFile exampleFmt (Params.ofConfig 1 8 2 false 1000) = line ++ ['\n'] ∧
        Split line ' ' =
          some ["--lambda".toList, "1/1".toList, "--beta_max".toList, "8/1".toList,
            "--kappa".toList, "2/1".toList, "--exact".toList, "false".toList] ∧
        ∃ P', parseConfigFile exampleCxxopts
            (saveConfigFile exampleFmt (Params.ofConfig 1 8 2 false 1000)) 1000 =
              some (Parsed.accepted P') ∧
          P'.exact = false :=
  ⟨⟨by decide, by decide, by decide⟩,
    (saveConfigFile_round_trip exampleCxxopts exampleFmt (Params.ofConfig 1 8 2 false 1000)
      1000 (by decide) (by decide) (by decide)).imp fun _ h =>
        ⟨h.1, h.2.1, h.2.2 (by decide) (fun _ => rfl)⟩⟩

end

end ConfigLemmas

/-! ## Preserved fields -/

section PreservedLemmas

open Matrix
variable {α : Type} [LinearOrderedField α]

/-- When the shrinkage step keeps, over the whole grid, exactly the gradient that the
operators `GX` and `GY` give for the input plane, an exact solve returns the input. -/
lemma optimize_fixed_of_kept (ext : External α) (P : Params α) (rows cols : Nat) (I : Mat α)
    (w : Work α (rows * cols)) (beta : α) (hw : WorkInv rows cols w)
    (hext : ext.Exact rows cols) (hb : 0 ≤ beta) (hI : I.rows = rows ∧ I.cols = cols)
    (hH : ∀ p : Fin (rows * cols),
      (optimize ext P I I w beta).2.H.data (p.val / cols) (p.val % cols) =
        (GX rows cols *ᵥ fun q : Fin (rows * cols) => I.data (q.val / cols) (q.val % cols)) p)
    (hV : ∀ p : Fin (rows * cols),
      (optimize ext P I I w beta).2.V.data (p.val / cols) (p.val % cols) =
        (GY rows cols *ᵥ fun q : Fin (rows * cols) => I.data (q.val / cols) (q.val % cols)) p) :
    (optimize ext P I I w beta).1 = I := by
  have ho := optimize_inv ext P rows cols I I w beta hw hI.1 hI.2
  have hA : systemMatrix w.g beta = systemMatrix (init rows cols) beta := by
    unfold systemMatrix; rw [hw.2.2.1, hw.2.2.2.1]
  have hx := toFin_cvMat2Vec I w.g.I_vec rows cols hI.1 hI.2
  have hHv : toFin (rows * cols) (cvMat2Vec (optimize ext P I I w beta).2.H w.g.H_vec) =
      GX rows cols *ᵥ fun q : Fin (rows * cols) => I.data (q.val / cols) (q.val % cols) := by
    rw [toFin_cvMat2Vec _ _ rows cols ho.2.1.1 ho.2.1.2.1]
    funext p; exact hH p
  have hVv : toFin (rows * cols) (cvMat2Vec (optimize ext P I I w beta).2.V w.g.V_vec) =
      GY rows cols *ᵥ fun q : Fin (rows * cols) => I.data (q.val / cols) (q.val % cols) := by
    rw [toFin_cvMat2Vec _ _ rows cols ho.2.1.2.2.1 ho.2.1.2.2.2]
    funext p; exact hV p
  have hrhs : rightHandSide w.g (cvMat2Vec I w.g.I_vec)
      (cvMat2Vec (optimize ext P I I w beta).2.H w.g.H_vec)
      (cvMat2Vec (optimize ext P I I w beta).2.V w.g.V_vec) beta =
      systemMatrix (init rows cols) beta *ᵥ
        fun q : Fin (rows * cols) => I.data (q.val / cols) (q.val % cols) := by
    unfold rightHandSide
    rw [hx, hHv, hVv, hw.2.2.2.2.1, hw.2.2.2.2.2, systemMatrix_eq, A0_eq,
      Matrix.add_mulVec, Matrix.one_mulVec, Matrix.smul_mulVec_assoc, Matrix.add_mulVec,
      Matrix.mulVec_mulVec, Matrix.mulVec_mulVec, add_comm]
    rfl
  have hsol : (if P.exact then ext.llt (systemMatrix (init rows cols) beta)
        (systemMatrix (init rows cols) beta *ᵥ
          fun q : Fin (rows * cols) => I.data (q.val / cols) (q.val % cols))
      else ext.cg (systemMatrix (init rows cols) beta)
        (systemMatrix (init rows cols) beta *ᵥ
          fun q : Fin (rows * cols) => I.data (q.val / cols) (q.val % cols))) =
      fun q : Fin (rows * cols) => I.data (q.val / cols) (q.val % cols) := by
    apply systemMatrix_injective rows cols beta hb
    have h := hext beta (systemMatrix (init rows cols) beta *ᵥ
      fun q : Fin (rows * cols) => I.data (q.val / cols) (q.val % cols)) hb
    split_ifs
    · exact h.1
    · exact h.2
  rw [optimize_fst, hrhs, hA, hsol, vec2CvMat_eq]
  ext j i <;> try rfl
  simp only
  split_ifs with hji
  · have hlt := index_lt rows cols j i (by rw [← hI.1]; exact hji.1) (by rw [← hI.2]; exact hji.2)
    have hi' : i < cols := by rw [← hI.2]; exact hji.2
    simp only [ofFin, hI.2, hlt, dif_pos, index_div _ _ _ hi', index_mod _ _ _ hi']
  · rfl

end PreservedLemmas

/-! ## Concrete scenario -/

section ScenarioLemmas

open Matrix

section
variable {α : Type} [LinearOrderedField α]

/-- Values of `H` and `V` over the grid after `optimize`, for buffers that satisfy the
invariant: the thresholded forward differences in the interior, 0 on the last row and
the last column. -/
lemma optimize_HV_grid (ext : External α) (P : Params α) (rows cols : Nat) (S I : Mat α)
    (w : Work α (rows * cols)) (beta : α) (hw : WorkInv rows cols w)
    (hr : S.rows = rows) (hc : S.cols = cols) (j i : Nat) (hj : j < rows) (hi : i < cols) :
    (optimize ext P S I w beta).2.H.data j i =
        (if j < rows - 1 ∧ i < cols - 1 then
          (if (S.data j i - S.data j (i + 1)) * (S.data j i - S.data j (i + 1)) +
              (S.data j i - S.data (j + 1) i) * (S.data j i - S.data (j + 1) i)
                < P.lambda / beta then 0 else S.data j i - S.data j (i + 1))
        else 0) ∧
      (optimize ext P S I w beta).2.V.data j i =
        (if j < rows - 1 ∧ i < cols - 1 then
          (if (S.data j i - S.data j (i + 1)) * (S.data j i - S.data j (i + 1)) +
              (S.data j i - S.data (j + 1) i) * (S.data j i - S.data (j + 1) i)
                < P.lambda / beta then 0 else S.data j i - S.data (j + 1) i)
        else 0) := by
  by_cases hint : j < rows - 1 ∧ i < cols - 1
  · have h := optimize_HV_interior ext P S I w beta j i (by rw [hr]; exact hint.1)
      (by rw [hc]; exact hint.2)
    rw [if_pos hint, if_pos hint]
    exact h
  · have h := optimize_HV_boundary ext P S I w beta j i (by rw [hr]; exact hj)
      (by rw [hc]; exact hi) (by rw [hr, hc]; exact hint)
    obtain ⟨gx0, gy0⟩ := hw.1 j i hint
    rw [if_neg hint, if_neg hint, h.1, h.2, gx0, gy0]
    simp
end

lemma fin16_pixel (p : Fin (4 * 4)) : p.val / 4 < 4 ∧ p.val % 4 < 4 := by
  have := p.isLt
  omega

/-- On the field with a single 1 at `(a,b)`, for `(a,b) = (0,0)` or `a <= 2` and
`1 <= b <= 2`, a threshold `lambda / beta` of at most 1 keeps exactly the gradient given
by the operators. -/
lemma spike_kept (ext : External ℚ) (P : Params ℚ) (w : Work ℚ (4 * 4)) (beta : ℚ)
    (a b : Nat) (hab : (a = 0 ∧ b = 0) ∨ (a ≤ 2 ∧ 1 ≤ b ∧ b ≤ 2))
    (hw : WorkInv 4 4 w) (h1 : P.lambda / beta ≤ 1) (p : Fin (4 * 4)) :
    (optimize ext P (spike a b) (spike a b) w beta).2.H.data (p.val / 4) (p.val % 4) =
        (GX 4 4 *ᵥ fun q : Fin (4 * 4) => (spike a b).data (q.val / 4) (q.val % 4)) p ∧
      (optimize ext P (spike a b) (spike a b) w beta).2.V.data (p.val / 4) (p.val % 4) =
        (GY 4 4 *ᵥ fun q : Fin (4 * 4) => (spike a b).data (q.val / 4) (q.val % 4)) p := by
  have h := optimize_HV_grid ext P 4 4 (spike a b) (spike a b) w beta hw rfl rfl
    (p.val / 4) (p.val % 4) (fin16_pixel p).1 (fin16_pixel p).2
  rw [h.1, h.2, GX_mulVec, GY_mulVec]
  obtain ⟨rfl, rfl⟩ | ⟨ha, hb1, hb2⟩ := hab
  · (fin_cases p <;> simp [spike])
    linarith
  · interval_cases a <;> interval_cases b <;> fin_cases p <;> simp [spike] <;> linarith

lemma scenario_threshold (k : Nat) :
    (0 : ℚ) < scenarioParams.beta0 * scenarioParams.kappa ^ k ∧
      scenarioParams.lambda / (scenarioParams.beta0 * scenarioParams.kappa ^ k) ≤ 1 := by
  have hk : (1 : ℚ) ≤ 2 ^ k := one_le_pow₀ (by norm_num)
  have hpos : (0 : ℚ) < 2 * (1 / 100) * 2 ^ k := by positivity
  refine ⟨hpos, ?_⟩
  show (1 / 100 : ℚ) / (2 * (1 / 100) * 2 ^ k) ≤ 1
  rw [div_le_one hpos]
  nlinarith

/-- With an exact solve, the scenario run on a spike at `(0,0)`, or at `(a,b)` with
`a <= 2` and `1 <= b <= 2`, has the input as its estimate after every pass. -/
lemma spike_preserved (ext : External ℚ) (hext : ext.Exact 4 4) (a b : Nat)
    (hab : (a = 0 ∧ b = 0) ∨ (a ≤ 2 ∧ 1 ≤ b ∧ b ≤ 2)) (H V : Nat → Nat → ℚ) (k : Nat) :
    ((loopBody ext scenarioParams [spike a b])^[k]
      (initialState scenarioParams 4 4 [spike a b] H V)).S_channels = [spike a b] := by
  have hd : ∀ J ∈ [spike a b], J.rows = 4 ∧ J.cols = 4 := by
    intro J hJ
    rw [List.mem_singleton.1 hJ]
    exact ⟨rfl, rfl⟩
  induction k with
  | zero => rfl
  | succ k ih =>
    have hinv := iterate_inv ext scenarioParams 4 4 [spike a b] H V hd k
    have hbeta := iterate_beta ext scenarioParams [spike a b] k
      (initialState scenarioParams 4 4 [spike a b] H V)
    have hthr := scenario_threshold k
    have hfix := optimize_fixed_of_kept ext scenarioParams 4 4 (spike a b)
      ((loopBody ext scenarioParams [spike a b])^[k]
        (initialState scenarioParams 4 4 [spike a b] H V)).w
      (scenarioParams.beta0 * scenarioParams.kappa ^ k) hinv.1 hext hthr.1.le ⟨rfl, rfl⟩
      (fun p => (spike_kept ext scenarioParams _ _ a b hab hinv.1 hthr.2 p).1)
      (fun p => (spike_kept ext scenarioParams _ _ a b hab hinv.1 hthr.2 p).2)
    rw [Function.iterate_succ_apply']
    show (optimizeChannels ext scenarioParams _ _ [spike a b] _).1 = [spike a b]
    rw [ih, hbeta]
    show [(optimize ext scenarioParams (spike a b) (spike a b) _ _).1] = [spike a b]
    exact congrArg (fun x => [x]) hfix

/-- The scenario run makes three passes, whatever the image and the solver. -/
lemma scenario_three_passes (ext : External ℚ) (I_channels : List (Mat ℚ))
    (H V : Nat → Nat → ℚ) :
    runLoop ext scenarioParams 4 4 I_channels H V =
      some ((loopBody ext scenarioParams I_channels)^[3]
        (initialState scenarioParams 4 4 I_channels H V)) := by
  have hleast : IsLeast {k | scenarioParams.beta_max ≤
      scenarioParams.beta0 * scenarioParams.kappa ^ k} 3 := by
    constructor
    · show (1 / 10 : ℚ) ≤ 2 * (1 / 100) * 2 ^ 3
      norm_num
    · intro k hk
      by_contra hlt
      have hk2 : k ≤ 2 := by omega
      have h1 : (1 / 10 : ℚ) ≤ 2 * (1 / 100) * 2 ^ k := hk
      have h2 : (2 : ℚ) ^ k ≤ 2 ^ 2 := pow_le_pow_right₀ (by norm_num) hk2
      norm_num at h1 h2
      linarith
  exact runLoop_iterations ext scenarioParams 4 4 I_channels H V (by decide) 3 hleast

/-- C15 (amended). Concrete scenario: for the `4 x 4` single-channel field that is 0
everywhere except one pixel equal to 1 at `(a,b)`, wherever that pixel is placed, with
`lambda = 0.01`, `beta0 = 0.02`, `kappa = 2`, `beta_max = 0.1`, the run performs 3 outer
iterations (`beta` after the updates 0.04, 0.08, 0.16) and returns 3 snapshots. The
fields are not always closer to uniform than the input: with the exact solve and the
pixel at `(0,0)`, or at `(a,b)` with `a <= 2` and `1 <= b <= 2`, the estimate after every
iteration is the raw input itself, so its gradient magnitude equals that of the input. -/
theorem spike_scenario (ext : External ℚ) (a b : Nat) (H V : Nat → Nat → ℚ)
    (_ha : a < 4) (_hb : b < 4) :
    (∃ st, runLoop ext scenarioParams 4 4 [spike a b] H V = some st ∧
        st = (loopBody ext scenarioParams [spike a b])^[3]
          (initialState scenarioParams 4 4 [spike a b] H V) ∧
        st.count = 3 ∧ st.S_mats.length = 3 ∧
        st.out = [(0, 4 / 100), (1, 8 / 100), (2, 16 / 100)]) ∧
      (ext.Exact 4 4 → ((a = 0 ∧ b = 0) ∨ (a ≤ 2 ∧ 1 ≤ b ∧ b ≤ 2)) →
        ∀ k, ((loopBody ext scenarioParams [spike a b])^[k]
          (initialState scenarioParams 4 4 [spike a b] H V)).S_channels = [spike a b]) := by
  refine ⟨⟨_, scenario_three_passes ext [spike a b] H V, rfl, ?_, ?_, ?_⟩,
    fun hext hab k => spike_preserved ext hext a b hab H V k⟩
  · rw [iterate_count]; rfl
  · rw [iterate_S_mats]; simp [initialState]
  · rw [iterate_out]
    simp [initialState, scenarioParams, Params.ofConfig, List.range_succ]
    norm_num

/-- Instance of the amended C15 with the pixel at `(1,2)`: three iterations. -/
theorem spike_scenario_witness :
    (1 < 4 ∧ 2 < 4) ∧
      ∃ st, runLoop exampleExternal scenarioParams 4 4 [spike 1 2] (fun _ _ => 7)
          (fun _ _ => 7) = some st ∧
        st.count = 3 ∧ st.S_mats.length = 3 ∧
        st.out = [(0, 4 / 100), (1, 8 / 100), (2, 16 / 100)] := by
  obtain ⟨st, h1, _, h3, h4, h5⟩ :=
    (spike_scenario exampleExternal 1 2 (fun _ _ => 7) (fun _ _ => 7) (by decide)
      (by decide)).1
  exact ⟨⟨by decide, by decide⟩, st, h1, h3, h4, h5⟩

/-- C15 as stated fails: exact solvers exist, and for each of them the scenario run on
the field with the pixel at `(0,0)` makes its 3 iterations and has the raw input as its
estimate after every iteration; whatever measure of a field is taken (a mean gradient
magnitude in particular), no iteration's value is strictly smaller than the input's. -/
theorem spike_at_origin_never_smoothed :
    (∃ ext : External ℚ, ext.Exact 4 4) ∧
      ∀ ext : External ℚ, ext.Exact 4 4 → ∀ H V : Nat → Nat → ℚ,
        (∃ st, runLoop ext scenarioParams 4 4 [spike 0 0] H V = some st ∧ st.count = 3) ∧
        (∀ k, ((loopBody ext scenarioParams [spike 0 0])^[k]
          (initialState scenarioParams 4 4 [spike 0 0] H V)).S_channels = [spike 0 0]) ∧
        ∀ (measure : Mat ℚ → ℚ) (k : Nat),
          ∀ S ∈ ((loopBody ext scenarioParams [spike 0 0])^[k]
            (initialState scenarioParams 4 4 [spike 0 0] H V)).S_channels,
            ¬ measure S < measure (spike 0 0) := by
  refine ⟨?_, fun ext hext H V => ⟨?_, ?_, ?_⟩⟩
  · obtain ⟨ext, h⟩ := exists_exact_external (α := ℚ)
    exact ⟨ext, h 4 4⟩
  · refine ⟨_, scenario_three_passes ext [spike 0 0] H V, ?_⟩
    rw [iterate_count]; rfl
  · exact spike_preserved ext hext 0 0 (Or.inl ⟨rfl, rfl⟩) H V
  · intro measure k S hS
    rw [spike_preserved ext hext 0 0 (Or.inl ⟨rfl, rfl⟩) H V k] at hS
    rw [List.mem_singleton.1 hS]
    exact lt_irrefl _

end ScenarioLemmas

/-! ## Single-precision rounding -/

section Binary32Lemmas

end Binary32Lemmas

/-! ## Main loop with a single-precision penalty weight -/

section RoundedLoopLemmas

variable {α : Type} [LinearOrderedField α]

lemma loopBodyRounded_exact (ext : External α) (P : Params α) {N : Nat}
    (I_channels : List (Mat α)) (st : LoopState α N) :
    loopBodyRounded (fun x => x) ext P I_channels st = loopBody ext P I_channels st := rfl

section
variable (fl : α → α) (ext : External α) (P : Params α) {N : Nat} (I_channels : List (Mat α))

end

end RoundedLoopLemmas

/-! ## Stored penalty weights of concrete runs -/

section ScheduleData

end ScheduleData

/-! ## Iteration count in single precision -/

section RoundedCount

variable {α : Type} [LinearOrderedField α]

lemma mainLoopRounded_exact (ext : External α) (P : Params α) {N : Nat}
    (I_channels : List (Mat α)) (fuel : Nat) : ∀ st : LoopState α N,
    mainLoopRounded (fun x => x) ext P I_channels fuel st = mainLoop ext P I_channels fuel st := by
  induction fuel with
  | zero => intro st; rfl
  | succ f ih =>
    intro st
    simp only [mainLoopRounded, mainLoop, loopBodyRounded_exact, ih]

/-- Without rounding the run is the run in exact arithmetic. -/
lemma runLoopRounded_exact (ext : External α) (P : Params α) (rows cols : Nat)
    (I_channels : List (Mat α)) (H V : Nat → Nat → α) :
    runLoopRounded (fun x => x) ext P rows cols I_channels H V =
      runLoop ext P rows cols I_channels H V :=
  mainLoopRounded_exact ext P I_channels _ _

end RoundedCount

/-! ## Penalty weight in single precision -/

section RoundedSchedule

variable {α : Type} [LinearOrderedField α]

end RoundedSchedule

end L0
